import Mathlib

/-!
Verification of the identifier cross-referencing and clustering core of the
animanga-mapped repository (src/mappers/anime_mapper.py,
src/mappers/manga_mapper.py, src/data-mapper.py).

Modelling conventions:
* Python dicts with string keys are modelled as association lists
  `List (String × α)` with insertion order preserved; assignment to an
  existing key overwrites in place, assignment to a fresh key appends.
* Service ids are modelled as strings (the mappers apply `str(...)` to every
  id they put into the graph); Python truthiness of an id is `≠ ""`.
* `(service, id)` graph vertices are plain string pairs compared by
  structural equality, exactly as Python tuple keys are.
-/

namespace Animanga

/-- A graph vertex: a `(service, id)` pair, as used for `id_graph` keys and
`visited`/`cluster` members in both mappers. -/
abbrev Node := String × String

/-- One item of a per-service scraped JSON file, as consumed by
`load_all_data`: its own `id`, the originating service, the `external_ids`
mapping, the `type` field and the `metadata` object (only the string-valued
entries the mappers inspect). -/
structure Item where
  service : String
  id : String
  external_ids : List (String × String)
  type : Option String
  metadata : List (String × String)
deriving DecidableEq

/-- Lookup in a Python-style dict modelled as an association list. -/
def getVal {α : Type} (d : List (String × α)) (k : String) : Option α :=
  (d.find? (fun p => p.1 == k)).map (fun p => p.2)

/-- Python dict assignment `d[k] = v`: overwrite in place if the key exists,
append otherwise. -/
def dictInsert {α : Type} (d : List (String × α)) (k : String) (v : α) :
    List (String × α) :=
  if d.any (fun p => p.1 == k) then
    d.map (fun p => if p.1 == k then (k, v) else p)
  else d ++ [(k, v)]

/-- Embedding of `all_ids = {service: item_id, **external_ids}` from `load_all_data`:
the record's own entry merged with its external ids, where an external
entry for the same key overwrites (Python dict-merge semantics). -/
def allIds (r : Item) : List (String × String) :=
  r.external_ids.foldl (fun d p => dictInsert d p.1 p.2) [(r.service, r.id)]

/-- The nodes a record contributes to the id graph: the entries of `all_ids`
with a truthy (non-empty) id, as in the comprehension
`(s, str(i)) for s, i in all_ids.items() if i`. -/
def nodeSet (r : Item) : List Node :=
  (allIds r).filter (fun p => p.2 != "")

/-- One record's contribution to `id_graph`: every node of the record is
keyed and receives the record's full node set
(`self.id_graph[svc][str(svc_id)].update(...)`). -/
def addItemEdges (g : Node → List Node) (r : Item) : Node → List Node :=
  fun n => if n ∈ nodeSet r then g n ++ nodeSet r else g n

/-- The full `id_graph` built by `load_all_data`, as the adjacency function
obtained by folding every record's clique contribution.  The Python
defaultdict maps absent keys to the empty set. -/
def buildGraph (records : List Item) : Node → List Node :=
  records.foldl addItemEdges (fun _ => [])

/-- All keys of `id_graph`, i.e. every node contributed by any record; this
is the iteration space of the outer loop of `build_cross_references`. -/
def allNodes (records : List Item) : List Node :=
  records.flatMap nodeSet

/-- The inner BFS loop of `build_cross_references` (identical in
`AnimeMapper` and `MangaMapper`): pops the queue front, skips visited
nodes, otherwise marks the node visited, adds it to the cluster and
enqueues its unvisited neighbours.  `univ` is the key set of `id_graph`;
membership of the popped node in `univ` always holds for the mappers'
calls (the queue only ever holds graph keys) and the check exists solely
to justify termination. -/
def bfs (nbrs : Node → List Node) (univ : List Node) :
    List Node → List Node → List Node → List Node × List Node
  | visited, cluster, [] => (visited, cluster)
  | visited, cluster, curr :: rest =>
    if curr ∈ visited ∨ curr ∉ univ then
      bfs nbrs univ visited cluster rest
    else
      bfs nbrs univ (curr :: visited) (curr :: cluster)
        (rest ++ (nbrs curr).filter (fun m => decide (m ∉ curr :: visited)))
termination_by visited _ queue =>
  ((univ.filter (fun n => decide (n ∉ visited))).length, queue.length)
decreasing_by
  · apply Prod.Lex.right
    simp
  · apply Prod.Lex.left
    rename_i h
    push_neg at h
    obtain ⟨hcv, hcu⟩ := h
    have hpt : univ.filter (fun n => decide (n ∉ curr :: visited)) =
        (univ.filter (fun n => decide (n ∉ visited))).filter
          (fun n => decide (n ≠ curr)) := by
      rw [List.filter_filter]
      apply List.filter_congr
      intro a _
      by_cases h1 : a = curr <;> by_cases h2 : a ∈ visited <;>
        simp [List.mem_cons, h1, h2]
    rw [hpt]
    have hsub := List.filter_sublist (p := fun n : Node => decide (n ≠ curr))
      (univ.filter (fun n => decide (n ∉ visited)))
    apply Nat.lt_of_le_of_ne hsub.length_le
    intro heq
    have heql := hsub.eq_of_length heq
    have hcurr : curr ∈ univ.filter (fun n => decide (n ∉ visited)) := by
      simp only [List.mem_filter, decide_eq_true_eq]
      exact ⟨hcu, hcv⟩
    rw [← heql] at hcurr
    simp [List.mem_filter] at hcurr

/-- The outer loop of `build_cross_references`: scan every graph key, start
a BFS at each unvisited key, and collect the non-empty clusters in
discovery order, threading the shared `visited` set. -/
def findClusters (nbrs : Node → List Node) (univ : List Node) :
    List Node → List Node → List (List Node)
  | [], _ => []
  | k :: ks, visited =>
    if k ∈ visited then findClusters nbrs univ ks visited
    else
      if (bfs nbrs univ visited [] [k]).2 = [] then
        findClusters nbrs univ ks (bfs nbrs univ visited [] [k]).1
      else
        (bfs nbrs univ visited [] [k]).2 ::
          findClusters nbrs univ ks (bfs nbrs univ visited [] [k]).1

/-- Step 2 of both mappers up to cluster discovery: the list of connected
clusters of the id graph, in the order found. -/
def buildClusters (records : List Item) : List (List Node) :=
  findClusters (buildGraph records) (allNodes records) (allNodes records) []

/-- ASCII lowercase of one character, as Python `str.lower()` acts on the
ASCII service names this repository uses.  (Defined explicitly because the
library string primitives do not reduce inside the kernel.) -/
def charLower (c : Char) : Char :=
  if 65 ≤ c.toNat ∧ c.toNat ≤ 90 then Char.ofNat (c.toNat + 32) else c

/-- Python `str.lower()` on ASCII strings. -/
def strLower (s : String) : String :=
  ⟨s.data.map charLower⟩

/-- Python `str.strip()` as performed by `int()` on its argument:
whitespace removed from both ends. -/
def strTrim (s : String) : String :=
  ⟨((s.data.dropWhile Char.isWhitespace).reverse.dropWhile
      Char.isWhitespace).reverse⟩

/-- Embedding of `AnimeMapper.normalize_service_name`. -/
def animeNormalizeServiceName (service : String) : String :=
  if strLower service = "themoviedb" then "themoviedb"
  else if strLower service = "thetvdb" then "tvdb"
  else if strLower service = "anime-planet" then "animeplanet"
  else if strLower service = "myanimelist" then "mal"
  else strLower service

/-- Embedding of `MangaMapper.normalize_service_name`. -/
def mangaNormalizeServiceName (service : String) : String :=
  if strLower service = "myanimelist" then "mal" else strLower service

/-- The `ids` dict a mapper builds from one cluster: iterate the cluster,
normalize the service name, and keep the first id seen per normalized
service (`if normalized not in ids: ids[normalized] = str(item_id)`).
The Python iteration order over the cluster set is arbitrary; here it is
the cluster list order. -/
def clusterIds (normalize : String → String) (cluster : List Node) :
    List (String × String) :=
  cluster.foldl (fun ids p =>
    if (getVal ids (normalize p.1)).isSome then ids
    else ids ++ [(normalize p.1, p.2)]) []

/-- The anime fallback loop `for svc in ['anilist', 'mal', 'kitsu', 'simkl']`
of `AnimeMapper.build_cross_references`. -/
def animeFallbackKey (ids : List (String × String)) :
    List String → Option String
  | [] => none
  | svc :: rest =>
    match getVal ids svc with
    | some v => some (svc ++ ":" ++ v)
    | none => animeFallbackKey ids rest

/-- Primary-key selection of `AnimeMapper.build_cross_references`: AniDB if
present, then the fallback list. -/
def animePrimaryKey (ids : List (String × String)) : Option String :=
  match getVal ids "anidb" with
  | some v => some ("anidb:" ++ v)
  | none => animeFallbackKey ids ["anilist", "mal", "kitsu", "simkl"]

/-- The manga fallback loop `for svc in ['mal', 'myanimelist', 'kitsu']` of
`MangaMapper.build_cross_references`, which looks the normalized name up. -/
def mangaFallbackKey (ids : List (String × String)) :
    List String → Option String
  | [] => none
  | svc :: rest =>
    match getVal ids (mangaNormalizeServiceName svc) with
    | some v => some (mangaNormalizeServiceName svc ++ ":" ++ v)
    | none => mangaFallbackKey ids rest

/-- Primary-key selection of `MangaMapper.build_cross_references`: AniList
if present, then the fallback list. -/
def mangaPrimaryKey (ids : List (String × String)) : Option String :=
  match getVal ids "anilist" with
  | some v => some ("anilist:" ++ v)
  | none => mangaFallbackKey ids ["mal", "myanimelist", "kitsu"]

/-- The `cross_ref` dict of `AnimeMapper.build_cross_references`: clusters
with a primary key are inserted in order (`cross_ref[primary_key] = ids`,
a plain dict assignment, so a later cluster with the same key overwrites). -/
def animeBuildCrossRef (clusters : List (List Node)) :
    List (String × List (String × String)) :=
  clusters.foldl (fun m c =>
    match animePrimaryKey (clusterIds animeNormalizeServiceName c) with
    | some k => dictInsert m k (clusterIds animeNormalizeServiceName c)
    | none => m) []

/-- The `cross_ref` dict of `MangaMapper.build_cross_references` (the
if/else over AniList and the fallback loop collapse to: insert exactly when
`mangaPrimaryKey` succeeds). -/
def mangaBuildCrossRef (clusters : List (List Node)) :
    List (String × List (String × String)) :=
  clusters.foldl (fun m c =>
    match mangaPrimaryKey (clusterIds mangaNormalizeServiceName c) with
    | some k => dictInsert m k (clusterIds mangaNormalizeServiceName c)
    | none => m) []

/-- Modelled from the spec words of claim C1 (not from the source): iterate
a fixed service-priority order and select the first service that has an id
present in the cluster's ids mapping. -/
def specPriorityScan (ids : List (String × String)) :
    List String → Option String
  | [] => none
  | svc :: rest =>
    match getVal ids svc with
    | some v => some (svc ++ ":" ++ v)
    | none => specPriorityScan ids rest

/-- The `all_data` dict of `load_all_data`, as a lookup from `(service, id)`
to the stored item; a later record with the same key overwrites. -/
def allDataOf (records : List Item) : Node → Option Item :=
  fun k => (records.filter (fun r => r.service == k.1 && r.id == k.2)).getLast?

/-- Python truthiness of an optional string field. -/
def truthy (o : Option String) : Bool :=
  match o with
  | some s => s != ""
  | none => false

/-- The loop body of `AnimeMapper.get_type_from_sources`: for each service
name in the priority list, look the raw name up in `id_map` and the pair
`(service, id_map[service])` up in `all_data`; return the first truthy
`type`. -/
def animeGetTypeLoop (ad : Node → Option Item)
    (idMap : List (String × String)) : List String → Option String
  | [] => none
  | service :: rest =>
    match getVal idMap service with
    | some iid =>
      match ad (service, iid) with
      | some item =>
        if truthy item.type then item.type
        else animeGetTypeLoop ad idMap rest
      | none => animeGetTypeLoop ad idMap rest
    | none => animeGetTypeLoop ad idMap rest

/-- Embedding of `AnimeMapper.get_type_from_sources`. -/
def animeGetTypeFromSources (ad : Node → Option Item)
    (idMap : List (String × String)) : Option String :=
  animeGetTypeLoop ad idMap ["anilist", "mal", "myanimelist", "kitsu"]

/-- The loop body of `MangaMapper.get_type_from_sources`: membership is
tested on the normalized name, but the `all_data` key uses the raw service
name with the id stored under the normalized name. -/
def mangaGetTypeLoop (ad : Node → Option Item)
    (idMap : List (String × String)) : List String → Option String
  | [] => none
  | service :: rest =>
    match getVal idMap (mangaNormalizeServiceName service) with
    | some iid =>
      match ad (service, iid) with
      | some item =>
        if truthy item.type then item.type
        else mangaGetTypeLoop ad idMap rest
      | none => mangaGetTypeLoop ad idMap rest
    | none => mangaGetTypeLoop ad idMap rest

/-- Embedding of `MangaMapper.get_type_from_sources`. -/
def mangaGetTypeFromSources (ad : Node → Option Item)
    (idMap : List (String × String)) : Option String :=
  mangaGetTypeLoop ad idMap ["anilist", "mal", "myanimelist", "kitsu"]

/-- Python `int(s)` on a string: optional surrounding whitespace, optional
sign, at least one decimal digit; anything else raises `ValueError`,
modelled as `none`.  (Underscore digit separators are not modelled.) -/
def pyToInt (s : String) : Option Int :=
  match (strTrim s).toList with
  | [] => none
  | c :: cs =>
    let ds : List Char :=
      if c = '-' ∨ c = '+' then cs else c :: cs
    if ds ≠ [] ∧ ds.all Char.isDigit then
      let mag : Nat := ds.foldl (fun n d => n * 10 + (d.toNat - '0'.toNat)) 0
      if c = '-' then some (-(mag : Int)) else some (mag : Int)
    else none

/-- A JSON value stored in a final output item. -/
inductive Val where
  | vint : Int → Val
  | vstr : String → Val
  | vseason : Option Int → Option Int → Val
deriving DecidableEq

/-- Embedding of `AnimeMapper.FIELD_MAP`. -/
def ANIME_FIELD_MAP : List (String × String) :=
  [("anidb", "anidb_id"), ("anilist", "anilist_id"), ("mal", "mal_id"),
   ("myanimelist", "mal_id"), ("animenewsnetwork", "animenewsnetwork_id"),
   ("animeplanet", "anime-planet_id"), ("anime-planet", "anime-planet_id"),
   ("kitsu", "kitsu_id"), ("livechart", "livechart_id"),
   ("simkl", "simkl_id"), ("themoviedb", "themoviedb_id"),
   ("tmdb", "themoviedb_id"), ("tvdb", "tvdb_id"), ("thetvdb", "tvdb_id"),
   ("imdb", "imdb_id")]

/-- Embedding of `MangaMapper.FIELD_MAP`. -/
def MANGA_FIELD_MAP : List (String × String) :=
  [("anilist", "anilist_id"), ("mal", "mal_id"), ("myanimelist", "mal_id"),
   ("kitsu", "kitsu_id")]

/-- Embedding of `AnimeMapper.extract_season_info`, split into the two season numbers:
TVDB season (sentinels `a`, `0`, `movie`, `ova`, the empty string) and TMDB
season (sentinels `a`, `0`, the empty string), both coerced with `int`. -/
def extractSeasonInfo (ad : Node → Option Item)
    (idMap : List (String × String)) : Option Int × Option Int :=
  match getVal idMap "anidb" with
  | none => (none, none)
  | some aid =>
    match ad ("anidb", aid) with
    | none => (none, none)
    | some item =>
      let tvdb : Option Int :=
        match getVal item.metadata "default_tvdb_season" with
        | some v =>
          if v ≠ "" ∧ v ∉ ["a", "0", "movie", "ova", ""] then pyToInt v
          else none
        | none => none
      let tmdb : Option Int :=
        match getVal item.metadata "tmdb_season" with
        | some v =>
          if v ≠ "" ∧ v ∉ ["a", "0", ""] then pyToInt v
          else none
        | none => none
      (tvdb, tmdb)

/-- The `season` dict returned by `extract_season_info`: `None` when no
season number was extracted. -/
def extractSeason (ad : Node → Option Item)
    (idMap : List (String × String)) : Option Val :=
  match extractSeasonInfo ad idMap with
  | (none, none) => none
  | (t, m) => some (Val.vseason t m)

/-- One iteration of the item-building loop of
`AnimeMapper.merge_to_final_format`: map the service to its output field
name, keep Anime-Planet ids as strings, coerce every other id with `int`
and drop the field when coercion fails. -/
def animeAddField (it : List (String × Val)) (p : String × String) :
    List (String × Val) :=
  match getVal ANIME_FIELD_MAP p.1 with
  | none => it
  | some f =>
    if p.1 = "animeplanet" ∨ p.1 = "anime-planet" then
      dictInsert it f (Val.vstr p.2)
    else
      match pyToInt p.2 with
      | some n => dictInsert it f (Val.vint n)
      | none => it

/-- The item built by `AnimeMapper.merge_to_final_format` for one
cross-reference entry: optional `type`, the id fields, optional `season`. -/
def animeBuildItem (ad : Node → Option Item)
    (idMap : List (String × String)) : List (String × Val) :=
  let item0 : List (String × Val) :=
    match animeGetTypeFromSources ad idMap with
    | some t => [("type", Val.vstr t)]
    | none => []
  let item1 := idMap.foldl animeAddField item0
  match extractSeason ad idMap with
  | some s => dictInsert item1 "season" s
  | none => item1

/-- One iteration of the item-building loop of
`MangaMapper.merge_to_final_format` (no slug-valued service for manga). -/
def mangaAddField (it : List (String × Val)) (p : String × String) :
    List (String × Val) :=
  match getVal MANGA_FIELD_MAP p.1 with
  | none => it
  | some f =>
    match pyToInt p.2 with
    | some n => dictInsert it f (Val.vint n)
    | none => it

/-- The item built by `MangaMapper.merge_to_final_format` for one
cross-reference entry: optional `type` and the id fields (no season). -/
def mangaBuildItem (ad : Node → Option Item)
    (idMap : List (String × String)) : List (String × Val) :=
  let item0 : List (String × Val) :=
    match mangaGetTypeFromSources ad idMap with
    | some t => [("type", Val.vstr t)]
    | none => []
  idMap.foldl mangaAddField item0

/-- Embedding of `any(k in item for k in self.FIELD_MAP.values())`. -/
def hasAnyIdField (fieldMap : List (String × String))
    (item : List (String × Val)) : Bool :=
  fieldMap.any (fun p => (getVal item p.2).isSome)

/-- The Python sort key `(x.get(f) is None, x.get(f, 999999999))`; a
present non-integer value never occurs for the fields sorted on. -/
def sortKeyOf (f : String) (item : List (String × Val)) : Bool × Int :=
  match getVal item f with
  | some (Val.vint n) => (false, n)
  | some _ => (false, 999999999)
  | none => (true, 999999999)

/-- Lexicographic comparison of sort keys, `False < True` as in Python. -/
def keyLE (a b : Bool × Int) : Bool :=
  if a.1 = b.1 then decide (a.2 ≤ b.2) else decide (a.1 = false)

/-- Python `list.sort` with the key above: a stable ascending sort,
modelled by `mergeSort`. -/
def sortFinal (f : String) (l : List (List (String × Val))) :
    List (List (String × Val)) :=
  l.mergeSort (fun x y => keyLE (sortKeyOf f x) (sortKeyOf f y))

/-- Embedding of `AnimeMapper.merge_to_final_format`: build one item per cross-reference
entry, keep only those with at least one id field, sort by `anidb_id`. -/
def animeMergeToFinalFormat (ad : Node → Option Item)
    (crossRef : List (String × List (String × String))) :
    List (List (String × Val)) :=
  sortFinal "anidb_id"
    ((crossRef.map (fun kv => animeBuildItem ad kv.2)).filter
      (fun it => hasAnyIdField ANIME_FIELD_MAP it))

/-- Embedding of `MangaMapper.merge_to_final_format`: same pipeline, sorted by
`anilist_id`. -/
def mangaMergeToFinalFormat (ad : Node → Option Item)
    (crossRef : List (String × List (String × String))) :
    List (List (String × Val)) :=
  sortFinal "anilist_id"
    ((crossRef.map (fun kv => mangaBuildItem ad kv.2)).filter
      (fun it => hasAnyIdField MANGA_FIELD_MAP it))

/-- One media item known to `MergeEnricher` (src/data-mapper.py): only its
`id_mappings` matter for the cross-reference pass. -/
structure MediaInfo where
  mappings : List (String × String)
deriving DecidableEq

/-- The seven recognized service names of
`MergeEnricher.build_cross_references`. -/
def RECOGNIZED_SERVICES : List String :=
  ["anilist", "mal", "kitsu", "anidb", "simkl", "tmdb", "imdb"]

/-- The initial `combined_mappings` dict: every recognized service mapped
to the empty string. -/
def initCombined : List (String × String) :=
  RECOGNIZED_SERVICES.map (fun s => (s, ""))

/-- One step of the mapping merge:
`if service_id and not combined_mappings.get(service)` — set the value
only when it is truthy and the current value is absent or empty. -/
def fillOne (d : List (String × String)) (p : String × String) :
    List (String × String) :=
  if p.2 ≠ "" ∧ (getVal d p.1).getD "" = "" then dictInsert d p.1 p.2 else d

/-- Merge one media item's `id_mappings` into `combined_mappings`. -/
def fillMappings (d : List (String × String))
    (m : List (String × String)) : List (String × String) :=
  m.foldl fillOne d

/-- The `combined_mappings` dict `MergeEnricher.build_cross_references`
builds for one merged group (third pass); group members missing from
`all_media` are skipped. -/
def combinedMappings (allMedia : List (String × MediaInfo))
    (group : List String) : List (String × String) :=
  group.foldl (fun d mk =>
    match getVal allMedia mk with
    | some info => fillMappings d info.mappings
    | none => d) initCombined

/-- Embedding of `MergeEnricher`'s primary-key choice: the first service of the fixed
order with a truthy combined value. -/
def enricherPrimaryKey (cm : List (String × String)) : Option String :=
  ["anilist", "mal", "kitsu", "simkl", "anidb"].foldr
    (fun s acc =>
      if (getVal cm s).getD "" ≠ "" then
        some (s ++ ":" ++ (getVal cm s).getD "")
      else acc) none

/-- Scenario record R1 of claim C2: an AniList record disclosing a MAL id. -/
def exR1 : Item := ⟨"anilist", "1", [("mal", "10")], none, []⟩

/-- Scenario record R2 of claim C2: a Kitsu record disclosing the same MAL
id. -/
def exR2 : Item := ⟨"kitsu", "100", [("mal", "10")], none, []⟩

/-- A record whose `external_ids` contains its own service under a
different id, so the Python dict merge drops the record's own id. -/
def exOverride : Item := ⟨"anilist", "1", [("anilist", "2")], none, []⟩

/-- A MyAnimeList record with no external ids. -/
def exML : Item := ⟨"myanimelist", "10", [], none, []⟩

/-- A Kitsu record disclosing the alias node `mal:10`. -/
def exKitsu5 : Item := ⟨"kitsu", "5", [("mal", "10")], none, []⟩

/-- A MyAnimeList record with a `type`, linked to Kitsu. -/
def exMLType : Item := ⟨"myanimelist", "10", [("kitsu", "100")], some "TV", []⟩

/-- A Kitsu record with a different `type`. -/
def exKitsuType : Item := ⟨"kitsu", "100", [], some "ONA", []⟩

/-- An AniDB record carrying season metadata. -/
def exAniDB : Item :=
  ⟨"anidb", "7", [], none,
    [("default_tvdb_season", "3"), ("tmdb_season", "movie")]⟩

theorem bfs_visited_mono (nbrs : Node → List Node) (univ : List Node)
    (visited cluster queue : List Node) :
    ∀ x ∈ visited, x ∈ (bfs nbrs univ visited cluster queue).1 := by
  induction visited, cluster, queue using bfs.induct nbrs univ with
  | case1 visited cluster =>
      intro x hx
      simpa [bfs] using hx
  | case2 visited cluster curr rest h ih =>
      intro x hx
      rw [bfs, if_pos h]
      exact ih x hx
  | case3 visited cluster curr rest h ih =>
      intro x hx
      rw [bfs, if_neg h]
      exact ih x (List.mem_cons_of_mem _ hx)

theorem bfs_cluster_mono (nbrs : Node → List Node) (univ : List Node)
    (visited cluster queue : List Node) :
    ∀ x ∈ cluster, x ∈ (bfs nbrs univ visited cluster queue).2 := by
  induction visited, cluster, queue using bfs.induct nbrs univ with
  | case1 visited cluster =>
      intro x hx
      simpa [bfs] using hx
  | case2 visited cluster curr rest h ih =>
      intro x hx
      rw [bfs, if_pos h]
      exact ih x hx
  | case3 visited cluster curr rest h ih =>
      intro x hx
      rw [bfs, if_neg h]
      exact ih x (List.mem_cons_of_mem _ hx)

theorem bfs_visited_cases (nbrs : Node → List Node) (univ : List Node)
    (visited cluster queue : List Node) :
    ∀ x ∈ (bfs nbrs univ visited cluster queue).1, x ∈ visited ∨ x ∈ univ := by
  induction visited, cluster, queue using bfs.induct nbrs univ with
  | case1 visited cluster =>
      intro x hx
      left
      simpa [bfs] using hx
  | case2 visited cluster curr rest h ih =>
      intro x hx
      rw [bfs, if_pos h] at hx
      exact ih x hx
  | case3 visited cluster curr rest h ih =>
      push_neg at h
      intro x hx
      rw [bfs, if_neg (by push_neg; exact h)] at hx
      rcases ih x hx with hv | hu
      · rcases List.mem_cons.mp hv with rfl | hv
        · exact Or.inr h.2
        · exact Or.inl hv
      · exact Or.inr hu

theorem bfs_cluster_spec (nbrs : Node → List Node) (univ : List Node)
    (visited cluster queue : List Node) :
    ∀ x ∈ (bfs nbrs univ visited cluster queue).2,
      x ∈ cluster ∨
        (x ∈ (bfs nbrs univ visited cluster queue).1 ∧ x ∉ visited) := by
  induction visited, cluster, queue using bfs.induct nbrs univ with
  | case1 visited cluster =>
      intro x hx
      left
      simpa [bfs] using hx
  | case2 visited cluster curr rest h ih =>
      intro x hx
      rw [bfs, if_pos h] at hx ⊢
      exact ih x hx
  | case3 visited cluster curr rest h ih =>
      have h' := h
      push_neg at h'
      intro x hx
      rw [bfs, if_neg h] at hx ⊢
      rcases ih x hx with hc | ⟨h1, h2⟩
      · rcases List.mem_cons.mp hc with rfl | hc
        · refine Or.inr ⟨?_, h'.1⟩
          exact bfs_visited_mono nbrs univ _ _ _ x (List.mem_cons_self _ _)
        · exact Or.inl hc
      · exact Or.inr ⟨h1, fun hxx => h2 (List.mem_cons_of_mem _ hxx)⟩

theorem bfs_visited_spec (nbrs : Node → List Node) (univ : List Node)
    (visited cluster queue : List Node) :
    ∀ x ∈ (bfs nbrs univ visited cluster queue).1,
      x ∈ visited ∨ x ∈ (bfs nbrs univ visited cluster queue).2 := by
  induction visited, cluster, queue using bfs.induct nbrs univ with
  | case1 visited cluster =>
      intro x hx
      left
      simpa [bfs] using hx
  | case2 visited cluster curr rest h ih =>
      intro x hx
      rw [bfs, if_pos h] at hx ⊢
      exact ih x hx
  | case3 visited cluster curr rest h ih =>
      intro x hx
      rw [bfs, if_neg h] at hx ⊢
      rcases ih x hx with hv | hc
      · rcases List.mem_cons.mp hv with rfl | hv
        · exact Or.inr
            (bfs_cluster_mono nbrs univ _ _ _ x (List.mem_cons_self _ _))
        · exact Or.inl hv
      · exact Or.inr hc

theorem bfs_queue_visited (nbrs : Node → List Node) (univ : List Node)
    (visited cluster queue : List Node) :
    ∀ x ∈ queue, x ∈ univ → x ∈ (bfs nbrs univ visited cluster queue).1 := by
  induction visited, cluster, queue using bfs.induct nbrs univ with
  | case1 visited cluster =>
      intro x hx
      cases hx
  | case2 visited cluster curr rest h ih =>
      intro x hx hxu
      rw [bfs, if_pos h]
      rcases List.mem_cons.mp hx with rfl | hx
      · rcases h with hv | hnu
        · exact bfs_visited_mono nbrs univ _ _ _ x hv
        · exact absurd hxu hnu
      · exact ih x hx hxu
  | case3 visited cluster curr rest h ih =>
      intro x hx hxu
      rw [bfs, if_neg h]
      rcases List.mem_cons.mp hx with rfl | hx
      · exact bfs_visited_mono nbrs univ _ _ _ x (List.mem_cons_self _ _)
      · exact ih x (List.mem_append_left _ hx) hxu

theorem bfs_closed (nbrs : Node → List Node) (univ V₀ : List Node)
    (visited cluster queue : List Node) :
    (∀ x ∈ visited,
        x ∈ V₀ ∨ ∀ y ∈ nbrs x, y ∈ univ → y ∈ visited ∨ y ∈ queue) →
    ∀ x ∈ (bfs nbrs univ visited cluster queue).1,
      x ∈ V₀ ∨
        ∀ y ∈ nbrs x, y ∈ univ → y ∈ (bfs nbrs univ visited cluster queue).1 := by
  induction visited, cluster, queue using bfs.induct nbrs univ with
  | case1 visited cluster =>
      intro hpre x hx
      rw [bfs] at hx ⊢
      rcases hpre x hx with h0 | hy
      · exact Or.inl h0
      · refine Or.inr fun y hy1 hy2 => ?_
        rcases hy y hy1 hy2 with hv | hq
        · exact hv
        · cases hq
  | case2 visited cluster curr rest h ih =>
      intro hpre
      rw [bfs, if_pos h]
      apply ih
      intro x hx
      rcases hpre x hx with h0 | hy
      · exact Or.inl h0
      · refine Or.inr fun y hy1 hy2 => ?_
        rcases hy y hy1 hy2 with hv | hq
        · exact Or.inl hv
        · rcases List.mem_cons.mp hq with rfl | hq
          · rcases h with hv' | hnu
            · exact Or.inl hv'
            · exact absurd hy2 hnu
          · exact Or.inr hq
  | case3 visited cluster curr rest h ih =>
      intro hpre
      rw [bfs, if_neg h]
      apply ih
      intro x hx
      rcases List.mem_cons.mp hx with rfl | hx
      · refine Or.inr fun y hy1 hy2 => ?_
        by_cases hyc : y ∈ x :: visited
        · exact Or.inl hyc
        · refine Or.inr (List.mem_append_right _ ?_)
          rw [List.mem_filter]
          exact ⟨hy1, by simpa using hyc⟩
      · rcases hpre x hx with h0 | hy
        · exact Or.inl h0
        · refine Or.inr fun y hy1 hy2 => ?_
          rcases hy y hy1 hy2 with hv | hq
          · exact Or.inl (List.mem_cons_of_mem _ hv)
          · rcases List.mem_cons.mp hq with rfl | hq
            · exact Or.inl (List.mem_cons_self _ _)
            · exact Or.inr (List.mem_append_left _ hq)

theorem bfs_reach (nbrs : Node → List Node) (univ : List Node)
    (R : Node → Prop) (hR : ∀ a b, R a → b ∈ nbrs a → R b)
    (visited cluster queue : List Node) :
    (∀ x ∈ queue, R x) →
    ∀ x ∈ (bfs nbrs univ visited cluster queue).1, x ∈ visited ∨ R x := by
  induction visited, cluster, queue using bfs.induct nbrs univ with
  | case1 visited cluster =>
      intro _ x hx
      rw [bfs] at hx
      exact Or.inl hx
  | case2 visited cluster curr rest h ih =>
      intro hq x hx
      rw [bfs, if_pos h] at hx
      exact ih (fun y hy => hq y (List.mem_cons_of_mem _ hy)) x hx
  | case3 visited cluster curr rest h ih =>
      intro hq x hx
      rw [bfs, if_neg h] at hx
      have hcurr : R curr := hq curr (List.mem_cons_self _ _)
      have hq' : ∀ y ∈ rest ++
          (nbrs curr).filter (fun m => decide (m ∉ curr :: visited)), R y := by
        intro y hy
        rcases List.mem_append.mp hy with hy | hy
        · exact hq y (List.mem_cons_of_mem _ hy)
        · exact hR curr y hcurr (List.mem_of_mem_filter hy)
      rcases ih hq' x hx with hv | hr
      · rcases List.mem_cons.mp hv with rfl | hv
        · exact Or.inr hcurr
        · exact Or.inl hv
      · exact Or.inr hr

theorem bfs_cluster_nodup (nbrs : Node → List Node) (univ : List Node)
    (visited cluster queue : List Node) :
    cluster.Nodup → (∀ x ∈ cluster, x ∈ visited) →
    (bfs nbrs univ visited cluster queue).2.Nodup := by
  induction visited, cluster, queue using bfs.induct nbrs univ with
  | case1 visited cluster =>
      intro hnd _
      rw [bfs]
      exact hnd
  | case2 visited cluster curr rest h ih =>
      intro hnd hsub
      rw [bfs, if_pos h]
      exact ih hnd hsub
  | case3 visited cluster curr rest h ih =>
      have h' := h
      push_neg at h'
      intro hnd hsub
      rw [bfs, if_neg h]
      apply ih
      · exact List.nodup_cons.mpr ⟨fun hc => h'.1 (hsub curr hc), hnd⟩
      · intro x hx
        rcases List.mem_cons.mp hx with rfl | hx
        · exact List.mem_cons_self _ _
        · exact List.mem_cons_of_mem _ (hsub x hx)

theorem bfs_skip_nil (nbrs : Node → List Node) (univ : List Node)
    (visited cluster : List Node) (curr : Node)
    (h : curr ∈ visited ∨ curr ∉ univ) :
    bfs nbrs univ visited cluster [curr] = (visited, cluster) := by
  rw [bfs, if_pos h, bfs]

theorem findClusters_cover (nbrs : Node → List Node) (univ : List Node) :
    ∀ (ks visited : List Node), ∀ k ∈ ks, k ∈ univ →
      k ∈ visited ∨ ∃ K ∈ findClusters nbrs univ ks visited, k ∈ K := by
  intro ks
  induction ks with
  | nil =>
      intro visited k hk
      cases hk
  | cons k0 ks ih =>
    intro visited k hk hku
    by_cases hv : k0 ∈ visited
    · rw [findClusters, if_pos hv]
      rcases List.mem_cons.mp hk with rfl | hk
      · exact Or.inl hv
      · exact ih visited k hk hku
    · rw [findClusters, if_neg hv]
      rcases List.mem_cons.mp hk with rfl | hk
      · have h1 : k ∈ (bfs nbrs univ visited [] [k]).1 :=
          bfs_queue_visited nbrs univ visited [] [k] k
            (List.mem_cons_self _ _) hku
        rcases bfs_visited_spec nbrs univ visited [] [k] k h1 with h2 | h2
        · exact Or.inl h2
        · have hne : (bfs nbrs univ visited [] [k]).2 ≠ [] :=
            List.ne_nil_of_mem h2
          rw [if_neg hne]
          exact Or.inr ⟨_, List.mem_cons_self _ _, h2⟩
      · by_cases hc : (bfs nbrs univ visited [] [k0]).2 = []
        · rw [if_pos hc]
          rcases ih _ k hk hku with h | h
          · rcases bfs_visited_spec nbrs univ visited [] [k0] k h with h1 | h1
            · exact Or.inl h1
            · rw [hc] at h1
              cases h1
          · exact Or.inr h
        · rw [if_neg hc]
          rcases ih _ k hk hku with h | h
          · rcases bfs_visited_spec nbrs univ visited [] [k0] k h with h1 | h1
            · exact Or.inl h1
            · exact Or.inr ⟨_, List.mem_cons_self _ _, h1⟩
          · obtain ⟨K, hK, hkK⟩ := h
            exact Or.inr ⟨K, List.mem_cons_of_mem _ hK, hkK⟩

theorem findClusters_not_visited (nbrs : Node → List Node) (univ : List Node) :
    ∀ (ks visited : List Node), ∀ K ∈ findClusters nbrs univ ks visited,
      ∀ x ∈ K, x ∉ visited := by
  intro ks
  induction ks with
  | nil =>
      intro visited K hK
      rw [findClusters] at hK
      cases hK
  | cons k0 ks ih =>
    intro visited K hK x hx
    by_cases hv : k0 ∈ visited
    · rw [findClusters, if_pos hv] at hK
      exact ih visited K hK x hx
    · rw [findClusters, if_neg hv] at hK
      by_cases hc : (bfs nbrs univ visited [] [k0]).2 = []
      · rw [if_pos hc] at hK
        intro hxv
        exact ih _ K hK x hx
          (bfs_visited_mono nbrs univ visited [] [k0] x hxv)
      · rw [if_neg hc] at hK
        rcases List.mem_cons.mp hK with rfl | hK
        · rcases bfs_cluster_spec nbrs univ visited [] [k0] x hx with h | h
          · cases h
          · exact h.2
        · intro hxv
          exact ih _ K hK x hx
            (bfs_visited_mono nbrs univ visited [] [k0] x hxv)

theorem findClusters_subset (nbrs : Node → List Node) (univ : List Node) :
    ∀ (ks visited : List Node), ∀ K ∈ findClusters nbrs univ ks visited,
      ∀ x ∈ K, x ∈ univ ∨ x ∈ visited := by
  intro ks
  induction ks with
  | nil =>
      intro visited K hK
      rw [findClusters] at hK
      cases hK
  | cons k0 ks ih =>
    intro visited K hK x hx
    by_cases hv : k0 ∈ visited
    · rw [findClusters, if_pos hv] at hK
      exact ih visited K hK x hx
    · rw [findClusters, if_neg hv] at hK
      by_cases hc : (bfs nbrs univ visited [] [k0]).2 = []
      · rw [if_pos hc] at hK
        rcases ih _ K hK x hx with h | h
        · exact Or.inl h
        · rcases bfs_visited_cases nbrs univ visited [] [k0] x h with h1 | h1
          · exact Or.inr h1
          · exact Or.inl h1
      · rw [if_neg hc] at hK
        rcases List.mem_cons.mp hK with rfl | hK
        · rcases bfs_cluster_spec nbrs univ visited [] [k0] x hx with h | h
          · cases h
          · rcases bfs_visited_cases nbrs univ visited [] [k0] x h.1 with h1 | h1
            · exact absurd h1 h.2
            · exact Or.inl h1
        · rcases ih _ K hK x hx with h | h
          · exact Or.inl h
          · rcases bfs_visited_cases nbrs univ visited [] [k0] x h with h1 | h1
            · exact Or.inr h1
            · exact Or.inl h1

theorem findClusters_disjoint (nbrs : Node → List Node) (univ : List Node) :
    ∀ (ks visited : List Node),
      List.Pairwise (fun K L => ∀ x ∈ K, x ∉ L)
        (findClusters nbrs univ ks visited) := by
  intro ks
  induction ks with
  | nil =>
      intro visited
      rw [findClusters]
      exact List.Pairwise.nil
  | cons k0 ks ih =>
    intro visited
    by_cases hv : k0 ∈ visited
    · rw [findClusters, if_pos hv]
      exact ih visited
    · rw [findClusters, if_neg hv]
      by_cases hc : (bfs nbrs univ visited [] [k0]).2 = []
      · rw [if_pos hc]
        exact ih _
      · rw [if_neg hc]
        refine List.Pairwise.cons ?_ (ih _)
        intro L hL x hx hxL
        have hx1 : x ∈ (bfs nbrs univ visited [] [k0]).1 := by
          rcases bfs_cluster_spec nbrs univ visited [] [k0] x hx with h | h
          · cases h
          · exact h.1
        exact findClusters_not_visited nbrs univ ks _ L hL x hxL hx1

theorem findClusters_nodup (nbrs : Node → List Node) (univ : List Node) :
    ∀ (ks visited : List Node), ∀ K ∈ findClusters nbrs univ ks visited,
      K.Nodup := by
  intro ks
  induction ks with
  | nil =>
      intro visited K hK
      rw [findClusters] at hK
      cases hK
  | cons k0 ks ih =>
    intro visited K hK
    by_cases hv : k0 ∈ visited
    · rw [findClusters, if_pos hv] at hK
      exact ih visited K hK
    · rw [findClusters, if_neg hv] at hK
      by_cases hc : (bfs nbrs univ visited [] [k0]).2 = []
      · rw [if_pos hc] at hK
        exact ih _ K hK
      · rw [if_neg hc] at hK
        rcases List.mem_cons.mp hK with rfl | hK
        · exact bfs_cluster_nodup nbrs univ visited [] [k0] List.nodup_nil
            (fun x hx => absurd hx (List.not_mem_nil x))
        · exact ih _ K hK

theorem findClusters_closed (nbrs : Node → List Node) (univ : List Node)
    (hsym : ∀ a b, b ∈ nbrs a → a ∈ nbrs b) :
    ∀ (ks visited : List Node),
      (∀ x ∈ visited, ∀ y ∈ nbrs x, y ∈ univ → y ∈ visited) →
      ∀ K ∈ findClusters nbrs univ ks visited,
        ∀ x ∈ K, ∀ y ∈ nbrs x, y ∈ univ → y ∈ K := by
  intro ks
  induction ks with
  | nil =>
      intro visited _ K hK
      rw [findClusters] at hK
      cases hK
  | cons k0 ks ih =>
    intro visited hclosed K hK
    by_cases hv : k0 ∈ visited
    · rw [findClusters, if_pos hv] at hK
      exact ih visited hclosed K hK
    · rw [findClusters, if_neg hv] at hK
      have hnewclosed : ∀ x ∈ (bfs nbrs univ visited [] [k0]).1,
          ∀ y ∈ nbrs x, y ∈ univ → y ∈ (bfs nbrs univ visited [] [k0]).1 := by
        intro x hx y hy hyu
        rcases bfs_closed nbrs univ visited visited [] [k0]
            (fun z hz => Or.inl hz) x hx with h0 | h
        · exact bfs_visited_mono nbrs univ visited [] [k0] y
            (hclosed x h0 y hy hyu)
        · exact h y hy hyu
      by_cases hc : (bfs nbrs univ visited [] [k0]).2 = []
      · rw [if_pos hc] at hK
        exact ih _ hnewclosed K hK
      · rw [if_neg hc] at hK
        rcases List.mem_cons.mp hK with rfl | hK
        · intro x hx y hy hyu
          obtain ⟨hx1, hx2⟩ : x ∈ (bfs nbrs univ visited [] [k0]).1 ∧
              x ∉ visited := by
            rcases bfs_cluster_spec nbrs univ visited [] [k0] x hx with h | h
            · cases h
            · exact h
          have hy1 : y ∈ (bfs nbrs univ visited [] [k0]).1 :=
            hnewclosed x hx1 y hy hyu
          rcases bfs_visited_spec nbrs univ visited [] [k0] y hy1
            with hyv | hyc
          · exfalso
            have hxu : x ∈ univ := by
              rcases bfs_visited_cases nbrs univ visited [] [k0] x hx1
                with h | h
              · exact absurd h hx2
              · exact h
            exact hx2 (hclosed y hyv x (hsym x y hy) hxu)
          · exact hyc
        · exact ih _ hnewclosed K hK

theorem findClusters_reach (nbrs : Node → List Node) (univ : List Node) :
    ∀ (ks visited : List Node), ∀ K ∈ findClusters nbrs univ ks visited,
      ∃ s ∈ K, ∀ x ∈ K,
        Relation.ReflTransGen (fun a b => b ∈ nbrs a) s x := by
  intro ks
  induction ks with
  | nil =>
      intro visited K hK
      rw [findClusters] at hK
      cases hK
  | cons k0 ks ih =>
    intro visited K hK
    by_cases hv : k0 ∈ visited
    · rw [findClusters, if_pos hv] at hK
      exact ih visited K hK
    · rw [findClusters, if_neg hv] at hK
      by_cases hc : (bfs nbrs univ visited [] [k0]).2 = []
      · rw [if_pos hc] at hK
        exact ih _ K hK
      · rw [if_neg hc] at hK
        rcases List.mem_cons.mp hK with rfl | hK
        · have hku : k0 ∈ univ := by
            by_contra hku
            exact hc (congrArg Prod.snd
              (bfs_skip_nil nbrs univ visited [] k0 (Or.inr hku)))
          have h1 : k0 ∈ (bfs nbrs univ visited [] [k0]).1 :=
            bfs_queue_visited nbrs univ visited [] [k0] k0
              (List.mem_cons_self _ _) hku
          have hk0 : k0 ∈ (bfs nbrs univ visited [] [k0]).2 := by
            rcases bfs_visited_spec nbrs univ visited [] [k0] k0 h1 with h | h
            · exact absurd h hv
            · exact h
          refine ⟨k0, hk0, fun x hx => ?_⟩
          obtain ⟨hx1, hx2⟩ : x ∈ (bfs nbrs univ visited [] [k0]).1 ∧
              x ∉ visited := by
            rcases bfs_cluster_spec nbrs univ visited [] [k0] x hx with h | h
            · cases h
            · exact h
          have hreach := bfs_reach nbrs univ
            (Relation.ReflTransGen (fun a b => b ∈ nbrs a) k0)
            (fun a b ha hb => Relation.ReflTransGen.tail ha hb)
            visited [] [k0]
            (by
              intro y hy
              rcases List.mem_cons.mp hy with rfl | hy
              · exact Relation.ReflTransGen.refl
              · cases hy)
            x hx1
          rcases hreach with h | h
          · exact absurd h hx2
          · exact h
        · exact ih _ K hK

theorem mem_foldl_addItemEdges :
    ∀ (records : List Item) (g : Node → List Node) (n m : Node),
      m ∈ (records.foldl addItemEdges g) n ↔
        m ∈ g n ∨ ∃ r ∈ records, n ∈ nodeSet r ∧ m ∈ nodeSet r := by
  intro records
  induction records with
  | nil => simp
  | cons r rs ih =>
    intro g n m
    simp only [List.foldl_cons]
    rw [ih]
    by_cases hn : n ∈ nodeSet r
    · simp only [addItemEdges, if_pos hn, List.mem_append, List.mem_cons]
      constructor
      · rintro ((h | h) | ⟨r1, hr1, h1, h2⟩)
        · exact Or.inl h
        · exact Or.inr ⟨r, Or.inl rfl, hn, h⟩
        · exact Or.inr ⟨r1, Or.inr hr1, h1, h2⟩
      · rintro (h | ⟨r1, hr1 | hr1, h1, h2⟩)
        · exact Or.inl (Or.inl h)
        · subst hr1
          exact Or.inl (Or.inr h2)
        · exact Or.inr ⟨r1, hr1, h1, h2⟩
    · simp only [addItemEdges, if_neg hn, List.mem_cons]
      constructor
      · rintro (h | ⟨r1, hr1, h1, h2⟩)
        · exact Or.inl h
        · exact Or.inr ⟨r1, Or.inr hr1, h1, h2⟩
      · rintro (h | ⟨r1, hr1 | hr1, h1, h2⟩)
        · exact Or.inl h
        · subst hr1
          exact absurd h1 hn
        · exact Or.inr ⟨r1, hr1, h1, h2⟩

theorem mem_buildGraph (records : List Item) (n m : Node) :
    m ∈ buildGraph records n ↔
      ∃ r ∈ records, n ∈ nodeSet r ∧ m ∈ nodeSet r := by
  rw [buildGraph, mem_foldl_addItemEdges]
  simp

theorem buildGraph_symm (records : List Item) (n m : Node)
    (h : m ∈ buildGraph records n) : n ∈ buildGraph records m := by
  rw [mem_buildGraph] at h ⊢
  obtain ⟨r, hr, h1, h2⟩ := h
  exact ⟨r, hr, h2, h1⟩

theorem mem_allNodes (records : List Item) (n : Node) :
    n ∈ allNodes records ↔ ∃ r ∈ records, n ∈ nodeSet r := by
  simp [allNodes]

theorem buildGraph_subset_allNodes (records : List Item) (n m : Node)
    (h : m ∈ buildGraph records n) : m ∈ allNodes records := by
  rw [mem_buildGraph] at h
  rw [mem_allNodes]
  obtain ⟨r, hr, _, h2⟩ := h
  exact ⟨r, hr, h2⟩

theorem buildClusters_cover (records : List Item) (n : Node)
    (hn : n ∈ allNodes records) :
    ∃ K ∈ buildClusters records, n ∈ K := by
  rcases findClusters_cover (buildGraph records) (allNodes records)
    (allNodes records) [] n hn hn with h | h
  · cases h
  · exact h

theorem buildClusters_disjoint (records : List Item) :
    List.Pairwise (fun K L => ∀ x ∈ K, x ∉ L) (buildClusters records) :=
  findClusters_disjoint (buildGraph records) (allNodes records)
    (allNodes records) []

theorem buildClusters_nodup (records : List Item) :
    ∀ K ∈ buildClusters records, K.Nodup :=
  findClusters_nodup (buildGraph records) (allNodes records)
    (allNodes records) []

theorem buildClusters_subset (records : List Item) :
    ∀ K ∈ buildClusters records, ∀ x ∈ K, x ∈ allNodes records := by
  intro K hK x hx
  rcases findClusters_subset (buildGraph records) (allNodes records)
    (allNodes records) [] K hK x hx with h | h
  · exact h
  · cases h

theorem buildClusters_closed (records : List Item) :
    ∀ K ∈ buildClusters records, ∀ x ∈ K,
      ∀ y ∈ buildGraph records x, y ∈ K := by
  intro K hK x hx y hy
  exact findClusters_closed (buildGraph records) (allNodes records)
    (buildGraph_symm records) (allNodes records) []
    (fun z hz => absurd hz (List.not_mem_nil z)) K hK x hx y hy
    (buildGraph_subset_allNodes records x y hy)

theorem buildClusters_reach (records : List Item) :
    ∀ K ∈ buildClusters records, ∃ s ∈ K, ∀ x ∈ K,
      Relation.ReflTransGen (fun a b => b ∈ buildGraph records a) s x :=
  findClusters_reach (buildGraph records) (allNodes records)
    (allNodes records) []

theorem reach_isolated (records : List Item) (n : Node)
    (hiso : ∀ m ∈ buildGraph records n, m = n) :
    ∀ x, Relation.ReflTransGen (fun a b => b ∈ buildGraph records a) n x →
      x = n := by
  intro x hx
  induction hx with
  | refl => rfl
  | tail _ hstep ih =>
      subst ih
      exact hiso _ hstep

theorem buildClusters_isolated (records : List Item) (n : Node)
    (hiso : ∀ m ∈ buildGraph records n, m = n) :
    ∀ K ∈ buildClusters records, n ∈ K → K = [n] := by
  intro K hK hn
  obtain ⟨s, hs, hreach⟩ := buildClusters_reach records K hK
  have hsymm : Symmetric (fun a b : Node => b ∈ buildGraph records a) :=
    fun a b h => buildGraph_symm records a b h
  have hsn : s = n := by
    have h1 := hreach n hn
    have h2 : Relation.ReflTransGen
        (fun a b => b ∈ buildGraph records a) n s :=
      (Relation.ReflTransGen.symmetric hsymm) h1
    exact reach_isolated records n hiso s h2
  have hall : ∀ x ∈ K, x = n := by
    intro x hx
    exact reach_isolated records n hiso x (hsn ▸ hreach x hx)
  have hnd := buildClusters_nodup records K hK
  cases K with
  | nil => cases hn
  | cons a t =>
      have ha : a = n := hall a (List.mem_cons_self _ _)
      subst ha
      have ht : t = [] := by
        rw [List.eq_nil_iff_forall_not_mem]
        intro x hx
        have hx' : x = a := hall x (List.mem_cons_of_mem _ hx)
        subst hx'
        exact (List.nodup_cons.mp hnd).1 hx
      rw [ht]

theorem getVal_cons {α : Type} (p : String × α) (d : List (String × α))
    (k : String) :
    getVal (p :: d) k = if p.1 == k then some p.2 else getVal d k := by
  by_cases h : p.1 == k
  · simp [getVal, List.find?_cons, h]
  · simp [getVal, List.find?_cons, h]

theorem any_key_iff_getVal_isSome {α : Type} (d : List (String × α))
    (k : String) :
    d.any (fun p => p.1 == k) = true ↔ (getVal d k).isSome := by
  induction d with
  | nil => simp [getVal]
  | cons p d ih =>
    rw [List.any_cons, getVal_cons]
    by_cases h : p.1 == k
    · simp [h]
    · simp only [h, if_false, Bool.false_or]
      exact ih

theorem getVal_append_single {α : Type} (d : List (String × α))
    (k2 k : String) (v2 : α) :
    getVal (d ++ [(k2, v2)]) k =
      match getVal d k with
      | some w => some w
      | none => if k2 == k then some v2 else none := by
  induction d with
  | nil =>
    rw [List.nil_append, getVal_cons]
    by_cases h : k2 == k
    · simp [h, getVal]
    · simp [h, getVal]
  | cons p d ih =>
    rw [List.cons_append, getVal_cons, getVal_cons]
    by_cases h : p.1 == k
    · simp [h]
    · simp only [h, if_false]
      exact ih

theorem getVal_map_upd_self {α : Type} (d : List (String × α))
    (k : String) (v : α) :
    getVal (d.map (fun p => if p.1 == k then (k, v) else p)) k =
      (getVal d k).map (fun _ => v) := by
  induction d with
  | nil => simp [getVal]
  | cons p d ih =>
    rw [List.map_cons, getVal_cons, getVal_cons]
    by_cases h : p.1 == k
    · simp [h]
    · simp only [h, Bool.false_eq_true, if_false]
      exact ih

theorem getVal_map_upd_ne {α : Type} (d : List (String × α))
    (k k' : String) (v : α) (hne : k' ≠ k) :
    getVal (d.map (fun p => if p.1 == k then (k, v) else p)) k' =
      getVal d k' := by
  induction d with
  | nil => simp [getVal]
  | cons p d ih =>
    rw [List.map_cons, getVal_cons, getVal_cons]
    by_cases h : p.1 == k
    · have hkk : ¬ (k == k') := by
        simpa using fun hq => hne hq.symm
      have hpk : ¬ (p.1 == k') := by
        have hpe : p.1 = k := by simpa using h
        rw [hpe]
        exact hkk
      simp only [h, if_true, hkk, hpk, if_false]
      exact ih
    · simp only [h, Bool.false_eq_true, if_false]
      by_cases h2 : p.1 == k'
      · simp [h2]
      · simp only [h2, Bool.false_eq_true, if_false]
        exact ih

theorem getVal_dictInsert_self {α : Type} (d : List (String × α))
    (k : String) (v : α) :
    getVal (dictInsert d k v) k = some v := by
  rw [dictInsert]
  by_cases h : d.any (fun p => p.1 == k)
  · rw [if_pos h, getVal_map_upd_self]
    have hs := (any_key_iff_getVal_isSome d k).mp h
    obtain ⟨w, hw⟩ := Option.isSome_iff_exists.mp hs
    rw [hw]
    rfl
  · rw [if_neg h, getVal_append_single]
    have hn : getVal d k = none := by
      by_contra hcon
      exact h ((any_key_iff_getVal_isSome d k).mpr
        (Option.ne_none_iff_isSome.mp hcon))
    rw [hn]
    simp

theorem getVal_dictInsert_ne {α : Type} (d : List (String × α))
    (k k' : String) (v : α) (hne : k' ≠ k) :
    getVal (dictInsert d k v) k' = getVal d k' := by
  rw [dictInsert]
  by_cases h : d.any (fun p => p.1 == k)
  · rw [if_pos h, getVal_map_upd_ne d k k' v hne]
  · rw [if_neg h, getVal_append_single]
    cases hd : getVal d k' with
    | some w => rfl
    | none =>
      have hkk : ¬ (k == k') := by
        simpa using fun hq => hne hq.symm
      simp [hkk]

theorem map_fst_dictInsert_of_mem {α : Type} (d : List (String × α))
    (k : String) (v : α) (h : d.any (fun p => p.1 == k)) :
    (dictInsert d k v).map Prod.fst = d.map Prod.fst := by
  rw [dictInsert, if_pos h, List.map_map]
  apply List.map_congr_left
  intro p _
  by_cases hp : p.1 == k
  · have hpe : p.1 = k := by simpa using hp
    simp [hp, hpe]
  · have hpe : ¬ p.1 = k := by simpa using hp
    simp [hpe]

theorem map_fst_dictInsert_of_not_mem {α : Type} (d : List (String × α))
    (k : String) (v : α) (h : ¬ d.any (fun p => p.1 == k)) :
    (dictInsert d k v).map Prod.fst = d.map Prod.fst ++ [k] := by
  rw [dictInsert, if_neg h]
  simp

theorem nodup_keys_dictInsert {α : Type} (d : List (String × α))
    (k : String) (v : α) (h : (d.map Prod.fst).Nodup) :
    ((dictInsert d k v).map Prod.fst).Nodup := by
  by_cases ha : d.any (fun p => p.1 == k)
  · rw [map_fst_dictInsert_of_mem d k v ha]
    exact h
  · rw [map_fst_dictInsert_of_not_mem d k v ha]
    refine List.Nodup.append h (List.nodup_singleton k) ?_
    intro a haL haR
    have hak : a = k := by simpa using haR
    subst hak
    obtain ⟨p, hp, hpk⟩ := List.mem_map.mp haL
    exact ha (List.any_eq_true.mpr ⟨p, hp, by simpa using hpk⟩)

/-- Claim C3: the Cluster Resolver partitions the id-graph nodes.  Every
node contributed by an ingested record lies in some output cluster; the
clusters are pairwise disjoint and duplicate-free, so each node is
assigned to exactly one cluster; clusters contain only graph nodes; a node
with no edge to any other node forms a singleton cluster.  The resolver is
a total function, hence has no failure states. -/
theorem claim_C3_cluster_partition (records : List Item) :
    (∀ n ∈ allNodes records, ∃ K ∈ buildClusters records, n ∈ K) ∧
    List.Pairwise (fun K L => ∀ x ∈ K, x ∉ L) (buildClusters records) ∧
    (∀ K ∈ buildClusters records, K.Nodup) ∧
    (∀ K ∈ buildClusters records, ∀ x ∈ K, x ∈ allNodes records) ∧
    (∀ n ∈ allNodes records, (∀ m ∈ buildGraph records n, m = n) →
      ∀ K ∈ buildClusters records, n ∈ K → K = [n]) :=
  ⟨fun n hn => buildClusters_cover records n hn,
   buildClusters_disjoint records,
   buildClusters_nodup records,
   buildClusters_subset records,
   fun n _ hiso K hK hnK => buildClusters_isolated records n hiso K hK hnK⟩

/-- Witness for claim C3 at a concrete one-record input: the record's node
is covered and forms a singleton cluster. -/
theorem claim_C3_witness :
    (∃ K ∈ buildClusters [exML], (("myanimelist", "10") : Node) ∈ K) ∧
    (∀ K ∈ buildClusters [exML], (("myanimelist", "10") : Node) ∈ K →
      K = [("myanimelist", "10")]) := by
  refine ⟨(claim_C3_cluster_partition [exML]).1 _ (by decide), ?_⟩
  intro K hK hn
  exact (claim_C3_cluster_partition [exML]).2.2.2.2 _ (by decide)
    (by decide) K hK hn

/-- Claim C2 is falsified by the dict-merge corner case: `exOverride` has
own id `anilist:1` and non-empty external id `anilist:2`, so the claim
("own ID plus every non-empty external ID" forms a clique) would put
`anilist:1` in a cluster with `anilist:2`; but
`{service: item_id, **external_ids}` lets the external entry overwrite the
record's own service key, so `anilist:1` never enters the graph and lies
in no cluster at all. -/
theorem claim_C2_counterexample :
    exOverride.service = "anilist" ∧ exOverride.id = "1" ∧
    ("anilist", "2") ∈ exOverride.external_ids ∧
    ¬ ∃ K ∈ buildClusters [exOverride], (("anilist", "1") : Node) ∈ K := by
  refine ⟨rfl, rfl, by decide, ?_⟩
  rintro ⟨K, hK, h1⟩
  have h2 := buildClusters_subset [exOverride] K hK _ h1
  revert h2
  decide

/-- Claim C2 as amended: each record contributes a full clique among the
nodes of its merged id dict (`{service: id, **external_ids}` restricted to
non-empty values — an external entry for the record's own service
overrides the own id); output clusters are closed under these cliques and
under their transitive closure across records; in particular two records
R1 linking `anilist:1` with `mal:10` and R2 linking `mal:10` with
`kitsu:100` put `anilist:1` and `kitsu:100` into one cluster. -/
theorem claim_C2_amended (records : List Item) :
    (∀ r ∈ records, ∀ a ∈ nodeSet r, ∀ b ∈ nodeSet r,
      ∀ K ∈ buildClusters records, a ∈ K → b ∈ K) ∧
    (∀ a b, Relation.ReflTransGen
        (fun x y => ∃ r ∈ records, x ∈ nodeSet r ∧ y ∈ nodeSet r) a b →
      ∀ K ∈ buildClusters records, a ∈ K → b ∈ K) ∧
    (∀ R1 R2, R1 ∈ records → R2 ∈ records →
      ("anilist", "1") ∈ nodeSet R1 → ("mal", "10") ∈ nodeSet R1 →
      ("mal", "10") ∈ nodeSet R2 → ("kitsu", "100") ∈ nodeSet R2 →
      ∃ K ∈ buildClusters records,
        (("anilist", "1") : Node) ∈ K ∧ (("kitsu", "100") : Node) ∈ K) := by
  have hclique : ∀ r ∈ records, ∀ a ∈ nodeSet r, ∀ b ∈ nodeSet r,
      ∀ K ∈ buildClusters records, a ∈ K → b ∈ K := by
    intro r hr a ha b hb K hK haK
    exact buildClusters_closed records K hK a haK b
      ((mem_buildGraph records a b).mpr ⟨r, hr, ha, hb⟩)
  refine ⟨hclique, ?_, ?_⟩
  · intro a b hab K hK haK
    induction hab with
    | refl => exact haK
    | tail _ hstep ih =>
        obtain ⟨r, hr, h1, h2⟩ := hstep
        exact hclique r hr _ h1 _ h2 K hK ih
  · intro R1 R2 h1 h2 h3 h4 h5 h6
    obtain ⟨K, hK, hmem⟩ := buildClusters_cover records ("anilist", "1")
      ((mem_allNodes records _).mpr ⟨R1, h1, h3⟩)
    refine ⟨K, hK, hmem, ?_⟩
    have hmal : (("mal", "10") : Node) ∈ K :=
      hclique R1 h1 _ h3 _ h4 K hK hmem
    exact hclique R2 h2 _ h5 _ h6 K hK hmal

/-- Witness for the amended claim C2 at the concrete R1/R2 scenario. -/
theorem claim_C2_witness :
    ∃ K ∈ buildClusters [exR1, exR2],
      (("anilist", "1") : Node) ∈ K ∧ (("kitsu", "100") : Node) ∈ K :=
  (claim_C2_amended [exR1, exR2]).2.2 exR1 exR2 (by decide) (by decide)
    (by decide) (by decide) (by decide) (by decide)

theorem animeFallbackKey_eq_scan (ids : List (String × String)) :
    ∀ l, animeFallbackKey ids l = specPriorityScan ids l := by
  intro l
  induction l with
  | nil => rfl
  | cons svc rest ih =>
    rw [animeFallbackKey, specPriorityScan]
    cases h : getVal ids svc with
    | some v => rfl
    | none => exact ih

theorem mangaFallbackKey_eq_scan (ids : List (String × String)) :
    mangaFallbackKey ids ["mal", "myanimelist", "kitsu"] =
      specPriorityScan ids ["mal", "kitsu"] := by
  have e1 : mangaNormalizeServiceName "mal" = "mal" := by decide
  have e2 : mangaNormalizeServiceName "myanimelist" = "mal" := by decide
  have e3 : mangaNormalizeServiceName "kitsu" = "kitsu" := by decide
  rw [mangaFallbackKey, e1, specPriorityScan]
  cases h1 : getVal ids "mal" with
  | some v => rfl
  | none =>
    rw [mangaFallbackKey, e2, h1, mangaFallbackKey, e3, specPriorityScan]
    cases h2 : getVal ids "kitsu" with
    | some v => rfl
    | none => rfl

theorem animePrimaryKey_eq_scan (ids : List (String × String)) :
    animePrimaryKey ids =
      specPriorityScan ids ["anidb", "anilist", "mal", "kitsu", "simkl"] := by
  rw [animePrimaryKey, specPriorityScan]
  cases h : getVal ids "anidb" with
  | some v => rfl
  | none => exact animeFallbackKey_eq_scan ids _

theorem mangaPrimaryKey_eq_scan (ids : List (String × String)) :
    mangaPrimaryKey ids = specPriorityScan ids ["anilist", "mal", "kitsu"] := by
  rw [mangaPrimaryKey, specPriorityScan]
  cases h : getVal ids "anilist" with
  | some v => rfl
  | none => exact mangaFallbackKey_eq_scan ids

theorem animeBuildCrossRef_snoc (cs : List (List Node)) (c : List Node) :
    animeBuildCrossRef (cs ++ [c]) =
      match animePrimaryKey (clusterIds animeNormalizeServiceName c) with
      | some k => dictInsert (animeBuildCrossRef cs) k
          (clusterIds animeNormalizeServiceName c)
      | none => animeBuildCrossRef cs := by
  rw [animeBuildCrossRef, animeBuildCrossRef, List.foldl_append,
    List.foldl_cons, List.foldl_nil]

theorem mangaBuildCrossRef_snoc (cs : List (List Node)) (c : List Node) :
    mangaBuildCrossRef (cs ++ [c]) =
      match mangaPrimaryKey (clusterIds mangaNormalizeServiceName c) with
      | some k => dictInsert (mangaBuildCrossRef cs) k
          (clusterIds mangaNormalizeServiceName c)
      | none => mangaBuildCrossRef cs := by
  rw [mangaBuildCrossRef, mangaBuildCrossRef, List.foldl_append,
    List.foldl_cons, List.foldl_nil]

/-- Claim C1: for anime clusters the primary key is found by scanning the
fixed priority order anidb, anilist, mal, kitsu, simkl and taking the
first service present in the cluster's ids mapping; for manga the order is
anilist, mal, kitsu; and a cluster whose selection fails contributes no
cross-reference entry at all (the fold leaves the map unchanged). -/
theorem claim_C1_primary_key_selection :
    (∀ ids, animePrimaryKey ids =
      specPriorityScan ids ["anidb", "anilist", "mal", "kitsu", "simkl"]) ∧
    (∀ ids, mangaPrimaryKey ids =
      specPriorityScan ids ["anilist", "mal", "kitsu"]) ∧
    (∀ cs c, animeBuildCrossRef (cs ++ [c]) =
      match animePrimaryKey (clusterIds animeNormalizeServiceName c) with
      | some k => dictInsert (animeBuildCrossRef cs) k
          (clusterIds animeNormalizeServiceName c)
      | none => animeBuildCrossRef cs) ∧
    (∀ cs c, mangaBuildCrossRef (cs ++ [c]) =
      match mangaPrimaryKey (clusterIds mangaNormalizeServiceName c) with
      | some k => dictInsert (mangaBuildCrossRef cs) k
          (clusterIds mangaNormalizeServiceName c)
      | none => mangaBuildCrossRef cs) :=
  ⟨animePrimaryKey_eq_scan, mangaPrimaryKey_eq_scan,
   animeBuildCrossRef_snoc, mangaBuildCrossRef_snoc⟩

theorem nodup_keys_crossRefFold
    (primary : List (String × String) → Option String)
    (nm : String → String) :
    ∀ (cs : List (List Node)) (m : List (String × List (String × String))),
      (m.map Prod.fst).Nodup →
      ((cs.foldl (fun m c =>
        match primary (clusterIds nm c) with
        | some k => dictInsert m k (clusterIds nm c)
        | none => m) m).map Prod.fst).Nodup := by
  intro cs
  induction cs with
  | nil => intro m hm; exact hm
  | cons c cs ih =>
    intro m hm
    rw [List.foldl_cons]
    apply ih
    cases h : primary (clusterIds nm c) with
    | some k =>
        simp only [h]
        exact nodup_keys_dictInsert m k _ hm
    | none =>
        simp only [h]
        exact hm

/-- Claim C10: the cross-reference map holds at most one entry per
primary-key string (its key list is duplicate-free); when a later cluster
resolves to the same key as an earlier one, its ids mapping silently
replaces the earlier entry; and two distinct one-node clusters built from
the alias nodes `myanimelist:10` and `mal:10` indeed resolve to the same
primary key `mal:10`. -/
theorem claim_C10_cross_ref_overwrite :
    (∀ clusters, ((animeBuildCrossRef clusters).map Prod.fst).Nodup) ∧
    (∀ clusters, ((mangaBuildCrossRef clusters).map Prod.fst).Nodup) ∧
    (∀ cs c k,
      animePrimaryKey (clusterIds animeNormalizeServiceName c) = some k →
      getVal (animeBuildCrossRef (cs ++ [c])) k =
        some (clusterIds animeNormalizeServiceName c)) ∧
    (animePrimaryKey (clusterIds animeNormalizeServiceName
        [(("myanimelist", "10") : Node)]) = some "mal:10" ∧
     animePrimaryKey (clusterIds animeNormalizeServiceName
        [(("mal", "10") : Node)]) = some "mal:10" ∧
     [(("myanimelist", "10") : Node)] ≠ [(("mal", "10") : Node)]) := by
  refine ⟨?_, ?_, ?_, by decide, by decide, by decide⟩
  · intro clusters
    rw [animeBuildCrossRef]
    exact nodup_keys_crossRefFold animePrimaryKey animeNormalizeServiceName
      clusters [] (by simp)
  · intro clusters
    rw [mangaBuildCrossRef]
    exact nodup_keys_crossRefFold mangaPrimaryKey mangaNormalizeServiceName
      clusters [] (by simp)
  · intro cs c k hk
    rw [animeBuildCrossRef_snoc, hk]
    exact getVal_dictInsert_self _ k _

/-- Witness for claim C10: with the two alias singleton clusters, the
second cluster's ids mapping is what the key `mal:10` finally holds. -/
theorem claim_C10_witness :
    animePrimaryKey (clusterIds animeNormalizeServiceName
      [(("mal", "10") : Node)]) = some "mal:10" ∧
    getVal (animeBuildCrossRef
        ([[(("myanimelist", "10") : Node)]] ++ [[(("mal", "10") : Node)]]))
      "mal:10" =
      some (clusterIds animeNormalizeServiceName [(("mal", "10") : Node)]) :=
  ⟨by decide,
   claim_C10_cross_ref_overwrite.2.2.1 [[(("myanimelist", "10") : Node)]]
     [(("mal", "10") : Node)] "mal:10" (by decide)⟩

theorem clusterIds_foldl_pres (nm : String → String) :
    ∀ (rest : List Node) (ids : List (String × String)) (k : String)
      (v : String), getVal ids k = some v →
      getVal (rest.foldl (fun ids p =>
        if (getVal ids (nm p.1)).isSome then ids
        else ids ++ [(nm p.1, p.2)]) ids) k = some v := by
  intro rest
  induction rest with
  | nil => intro ids k v h; exact h
  | cons a rest ih =>
    intro ids k v h
    rw [List.foldl_cons]
    by_cases ha : (getVal ids (nm a.1)).isSome
    · rw [if_pos ha]
      exact ih ids k v h
    · rw [if_neg ha]
      apply ih
      rw [getVal_append_single, h]

theorem clusterIds_foldl_present (nm : String → String) :
    ∀ (cluster : List Node) (s i : String), (⟨s, i⟩ : Node) ∈ cluster →
      ∀ ids, (getVal (cluster.foldl (fun ids p =>
        if (getVal ids (nm p.1)).isSome then ids
        else ids ++ [(nm p.1, p.2)]) ids) (nm s)).isSome := by
  intro cluster
  induction cluster with
  | nil => intro s i h; cases h
  | cons a rest ih =>
    intro s i h ids
    rw [List.foldl_cons]
    rcases List.mem_cons.mp h with rfl | h
    · by_cases ha : (getVal ids (nm s)).isSome
      · rw [if_pos ha]
        obtain ⟨v, hv⟩ := Option.isSome_iff_exists.mp ha
        rw [clusterIds_foldl_pres nm rest ids (nm s) v hv]
        rfl
      · rw [if_neg ha]
        have hn : getVal ids (nm s) = none :=
          Option.not_isSome_iff_eq_none.mp ha
        have hv : getVal (ids ++ [(nm s, i)]) (nm s) = some i := by
          rw [getVal_append_single, hn]
          simp
        rw [clusterIds_foldl_pres nm rest _ (nm s) i hv]
        rfl
    · exact ih s i h _

theorem clusterIds_foldl_first (nm : String → String) :
    ∀ (cluster : List Node) (s i : String),
      (∀ q ∈ cluster, nm q.1 = nm s → q.2 = i) →
      (⟨s, i⟩ : Node) ∈ cluster →
      ∀ ids, (getVal ids (nm s) = none ∨ getVal ids (nm s) = some i) →
      getVal (cluster.foldl (fun ids p =>
        if (getVal ids (nm p.1)).isSome then ids
        else ids ++ [(nm p.1, p.2)]) ids) (nm s) = some i := by
  intro cluster
  induction cluster with
  | nil => intro s i _ h; cases h
  | cons a rest ih =>
    intro s i hconf h ids hdisj
    rw [List.foldl_cons]
    by_cases hna : nm a.1 = nm s
    · have ha2 : a.2 = i := hconf a (List.mem_cons_self _ _) hna
      by_cases ha : (getVal ids (nm a.1)).isSome
      · rw [if_pos ha]
        rw [hna] at ha
        rcases hdisj with hn | hs
        · rw [hn] at ha
          cases ha
        · exact clusterIds_foldl_pres nm rest ids (nm s) i hs
      · rw [if_neg ha]
        rw [hna] at ha
        have hn : getVal ids (nm s) = none :=
          Option.not_isSome_iff_eq_none.mp ha
        apply clusterIds_foldl_pres nm rest
        rw [getVal_append_single, hn, hna, ha2]
        simp
    · have hstep : getVal (if (getVal ids (nm a.1)).isSome then ids
          else ids ++ [(nm a.1, a.2)]) (nm s) = getVal ids (nm s) := by
        by_cases ha : (getVal ids (nm a.1)).isSome
        · rw [if_pos ha]
        · rw [if_neg ha, getVal_append_single]
          cases hk : getVal ids (nm s) with
          | some w => rfl
          | none =>
            have : ¬ (nm a.1 == nm s) := by simpa using hna
            simp [this]
      have hmem : (⟨s, i⟩ : Node) ∈ rest := by
        rcases List.mem_cons.mp h with heq | hm
        · exfalso
          apply hna
          rw [← heq]
        · exact hm
      refine ih s i (fun q hq hqs => hconf q (List.mem_cons_of_mem _ hq) hqs)
        hmem _ ?_
      rw [hstep]
      exact hdisj

theorem getVal_initCombined (s : String) (hs : s ∈ RECOGNIZED_SERVICES) :
    getVal initCombined s = some "" := by
  fin_cases hs <;> decide

theorem fillMappings_spec (s : String) :
    ∀ (m : List (String × String)) (d : List (String × String)),
      (getVal d s).isSome →
      ∃ v, getVal (fillMappings d m) s = some v ∧
        (v = "" ↔ (getVal d s = some "" ∧ ∀ i, (s, i) ∈ m → i = "")) := by
  intro m
  induction m with
  | nil =>
    intro d hd
    obtain ⟨v, hv⟩ := Option.isSome_iff_exists.mp hd
    refine ⟨v, hv, ?_⟩
    constructor
    · intro h
      subst h
      exact ⟨hv, fun i hi => absurd hi (List.not_mem_nil _)⟩
    · rintro ⟨h, -⟩
      rw [hv] at h
      exact Option.some.inj h
  | cons p rest ih =>
    obtain ⟨q, w⟩ := p
    intro d hd
    have hunf : fillMappings d ((q, w) :: rest) =
        fillMappings (fillOne d (q, w)) rest := rfl
    rw [hunf]
    by_cases hqs : q = s
    · subst hqs
      by_cases hw : w ≠ "" ∧ (getVal d q).getD "" = ""
      · have hfo : fillOne d (q, w) = dictInsert d q w := by
          rw [fillOne, if_pos hw]
        rw [hfo]
        have hd' : (getVal (dictInsert d q w) q).isSome := by
          rw [getVal_dictInsert_self]
          rfl
        obtain ⟨v, hv, hiff⟩ := ih (dictInsert d q w) hd'
        rw [getVal_dictInsert_self] at hiff
        refine ⟨v, hv, ?_⟩
        constructor
        · intro hve
          obtain ⟨hww, -⟩ := hiff.mp hve
          exact absurd (Option.some.inj hww) hw.1
        · rintro ⟨-, hall⟩
          exact absurd (hall w (List.mem_cons_self _ _)) hw.1
      · have hfo : fillOne d (q, w) = d := by
          rw [fillOne, if_neg hw]
        rw [hfo]
        obtain ⟨v, hv, hiff⟩ := ih d hd
        refine ⟨v, hv, ?_⟩
        rw [hiff]
        constructor
        · rintro ⟨hde, hall⟩
          refine ⟨hde, fun i hi => ?_⟩
          rcases List.mem_cons.mp hi with heq | hi
          · have hcur : (getVal d q).getD "" = "" := by
              rw [hde]
              rfl
            have hwe : w = "" := by
              by_contra hne
              exact hw ⟨hne, hcur⟩
            have hiw : i = w := congrArg Prod.snd heq
            rw [hiw, hwe]
          · exact hall i hi
        · rintro ⟨hde, hall⟩
          exact ⟨hde, fun i hi => hall i (List.mem_cons_of_mem _ hi)⟩
    · have hfo : getVal (fillOne d (q, w)) s = getVal d s := by
        rw [fillOne]
        by_cases hc : w ≠ "" ∧ (getVal d q).getD "" = ""
        · rw [if_pos hc]
          exact getVal_dictInsert_ne d q s w (fun h => hqs h.symm)
        · rw [if_neg hc]
      have hd' : (getVal (fillOne d (q, w)) s).isSome := by
        rw [hfo]
        exact hd
      obtain ⟨v, hv, hiff⟩ := ih _ hd'
      rw [hfo] at hiff
      refine ⟨v, hv, ?_⟩
      rw [hiff]
      constructor
      · rintro ⟨hde, hall⟩
        refine ⟨hde, fun i hi => ?_⟩
        rcases List.mem_cons.mp hi with heq | hi
        · exact absurd (congrArg Prod.fst heq).symm hqs
        · exact hall i hi
      · rintro ⟨hde, hall⟩
        exact ⟨hde, fun i hi => hall i (List.mem_cons_of_mem _ hi)⟩

theorem combinedFold_spec (am : List (String × MediaInfo)) (s : String) :
    ∀ (g : List String) (d : List (String × String)),
      (getVal d s).isSome →
      ∃ v, getVal (g.foldl (fun d mk =>
          match getVal am mk with
          | some info => fillMappings d info.mappings
          | none => d) d) s = some v ∧
        (v = "" ↔ (getVal d s = some "" ∧
          ∀ mk ∈ g, ∀ info, getVal am mk = some info →
            ∀ i, (s, i) ∈ info.mappings → i = "")) := by
  intro g
  induction g with
  | nil =>
    intro d hd
    obtain ⟨v, hv⟩ := Option.isSome_iff_exists.mp hd
    refine ⟨v, hv, ?_⟩
    constructor
    · intro h
      subst h
      exact ⟨hv, fun mk hmk => absurd hmk (List.not_mem_nil _)⟩
    · rintro ⟨h, -⟩
      rw [hv] at h
      exact Option.some.inj h
  | cons mk rest ih =>
    intro d hd
    rw [List.foldl_cons]
    cases him : getVal am mk with
    | none =>
      simp only [him]
      obtain ⟨v, hv, hiff⟩ := ih d hd
      refine ⟨v, hv, ?_⟩
      rw [hiff]
      constructor
      · rintro ⟨hde, hall⟩
        refine ⟨hde, fun mk' hmk' info hinfo i hi => ?_⟩
        rcases List.mem_cons.mp hmk' with rfl | hmk'
        · rw [him] at hinfo
          cases hinfo
        · exact hall mk' hmk' info hinfo i hi
      · rintro ⟨hde, hall⟩
        exact ⟨hde, fun mk' hmk' info hinfo i hi =>
          hall mk' (List.mem_cons_of_mem _ hmk') info hinfo i hi⟩
    | some info =>
      simp only [him]
      obtain ⟨w, hw, hwiff⟩ := fillMappings_spec s info.mappings d hd
      have hd' : (getVal (fillMappings d info.mappings) s).isSome := by
        rw [hw]
        rfl
      obtain ⟨v, hv, hiff⟩ := ih _ hd'
      rw [hw] at hiff
      refine ⟨v, hv, ?_⟩
      constructor
      · intro hve
        obtain ⟨hww, hall⟩ := hiff.mp hve
        obtain ⟨hde, hmape⟩ := hwiff.mp (Option.some.inj hww)
        refine ⟨hde, fun mk' hmk' info' hinfo i hi => ?_⟩
        rcases List.mem_cons.mp hmk' with rfl | hmk'
        · rw [him] at hinfo
          cases hinfo
          exact hmape i hi
        · exact hall mk' hmk' info' hinfo i hi
      · rintro ⟨hde, hall⟩
        apply hiff.mpr
        refine ⟨?_, fun mk' hmk' info' hinfo i hi =>
          hall mk' (List.mem_cons_of_mem _ hmk') info' hinfo i hi⟩
        rw [hwiff.mpr ⟨hde, fun i hi =>
          hall mk (List.mem_cons_self _ _) info him i hi⟩]

/-- Claim C4: a cluster's ids mapping contains an entry for the normalized
service of every `(service, id)` pair of the cluster, and when the cluster
carries only one id for that service the entry holds exactly that id
(otherwise the documented first-wins collapse applies); and the
`MergeEnricher` cross-reference entry maps every recognized service name
to a string which is empty exactly when no group member supplies a
non-empty id for that service. -/
theorem claim_C4_no_id_loss :
    (∀ c k, animePrimaryKey (clusterIds animeNormalizeServiceName c) =
        some k →
      ∀ s i, (⟨s, i⟩ : Node) ∈ c →
        (∃ v, getVal (clusterIds animeNormalizeServiceName c)
          (animeNormalizeServiceName s) = some v) ∧
        ((∀ q ∈ c, animeNormalizeServiceName q.1 =
            animeNormalizeServiceName s → q.2 = i) →
          getVal (clusterIds animeNormalizeServiceName c)
            (animeNormalizeServiceName s) = some i)) ∧
    (∀ am g s, s ∈ RECOGNIZED_SERVICES →
      ∃ v, getVal (combinedMappings am g) s = some v ∧
        (v = "" ↔ ∀ mk ∈ g, ∀ info, getVal am mk = some info →
          ∀ i, (s, i) ∈ info.mappings → i = "")) := by
  constructor
  · intro c _ _ s i hmem
    constructor
    · have h := clusterIds_foldl_present animeNormalizeServiceName c s i
        hmem []
      exact Option.isSome_iff_exists.mp h
    · intro hconf
      exact clusterIds_foldl_first animeNormalizeServiceName c s i hconf
        hmem [] (Or.inl rfl)
  · intro am g s hs
    have hinit : getVal initCombined s = some "" := getVal_initCombined s hs
    have hd : (getVal initCombined s).isSome := by
      rw [hinit]
      rfl
    obtain ⟨v, hv, hiff⟩ := combinedFold_spec am s g initCombined hd
    refine ⟨v, hv, ?_⟩
    rw [hiff]
    constructor
    · rintro ⟨-, hall⟩
      exact hall
    · intro hall
      exact ⟨hinit, hall⟩

/-- Witness for claim C4 at concrete inputs: the kitsu id of a two-node
cluster survives into the ids mapping, and a recognized service missing
from a concrete group is mapped to the empty string. -/
theorem claim_C4_witness :
    getVal (clusterIds animeNormalizeServiceName
        [(("anidb", "7") : Node), (("kitsu", "100") : Node)])
      (animeNormalizeServiceName "kitsu") = some "100" ∧
    ∃ v, getVal (combinedMappings
        [("anilist:1", MediaInfo.mk [("anilist", "1"), ("mal", "10")])]
        ["anilist:1"]) "kitsu" = some v ∧
      (v = "" ↔ ∀ mk ∈ ["anilist:1"], ∀ info,
        getVal [("anilist:1", MediaInfo.mk [("anilist", "1"), ("mal", "10")])]
          mk = some info →
        ∀ i, ("kitsu", i) ∈ info.mappings → i = "") :=
  ⟨((claim_C4_no_id_loss.1
      [(("anidb", "7") : Node), (("kitsu", "100") : Node)] "anidb:7"
      (by decide) "kitsu" "100" (by decide)).2 (by decide)),
   claim_C4_no_id_loss.2
     [("anilist:1", MediaInfo.mk [("anilist", "1"), ("mal", "10")])]
     ["anilist:1"] "kitsu" (by decide)⟩

/-- Claim C5 is falsified: the alias service names `myanimelist` and `mal`
normalize to the same output name, yet with the same id string they are
two distinct graph vertices, and with the concrete records `exML` and
`exKitsu5` the resolver puts them into different clusters, so equal
normalized service and id do not make two observations the same vertex. -/
theorem claim_C5_counterexample :
    animeNormalizeServiceName "myanimelist" =
      animeNormalizeServiceName "mal" ∧
    (("myanimelist", "10") : Node) ∈ allNodes [exML, exKitsu5] ∧
    (("mal", "10") : Node) ∈ allNodes [exML, exKitsu5] ∧
    ¬ ∃ K ∈ buildClusters [exML, exKitsu5],
      (("myanimelist", "10") : Node) ∈ K ∧ (("mal", "10") : Node) ∈ K := by
  refine ⟨by decide, by decide, by decide, ?_⟩
  rintro ⟨K, hK, h1, h2⟩
  have hsing := buildClusters_isolated [exML, exKitsu5] ("myanimelist", "10")
    (by decide) K hK h1
  rw [hsing] at h2
  revert h2
  decide

/-- Claim C5 as amended: graph vertices are raw `(service, id)` string
pairs — adjacency arises only from a record containing both raw nodes, so
alias spellings with the same id stay distinct vertices — while the
per-service alias normalization (myanimelist→mal, thetvdb→tvdb,
anime-planet→animeplanet) is applied only when a cluster is converted to
its output ids mapping, where every cluster member is keyed under its
normalized service name. -/
theorem claim_C5_amended :
    (∀ records (n m : Node), m ∈ buildGraph records n ↔
      ∃ r ∈ records, n ∈ nodeSet r ∧ m ∈ nodeSet r) ∧
    animeNormalizeServiceName "myanimelist" = "mal" ∧
    animeNormalizeServiceName "thetvdb" = "tvdb" ∧
    animeNormalizeServiceName "anime-planet" = "animeplanet" ∧
    mangaNormalizeServiceName "myanimelist" = "mal" ∧
    (∀ nm cluster s i, (⟨s, i⟩ : Node) ∈ cluster →
      (getVal (clusterIds nm cluster) (nm s)).isSome) := by
  refine ⟨mem_buildGraph, by decide, by decide, by decide, by decide, ?_⟩
  intro nm cluster s i hmem
  exact clusterIds_foldl_present nm cluster s i hmem []

/-- Witness for the amended claim C5 at a concrete cluster. -/
theorem claim_C5_witness :
    (getVal (clusterIds animeNormalizeServiceName
        [(("myanimelist", "10") : Node)])
      (animeNormalizeServiceName "myanimelist")).isSome :=
  claim_C5_amended.2.2.2.2.2 animeNormalizeServiceName
    [(("myanimelist", "10") : Node)] "myanimelist" "10" (by decide)

/-- Claim C6 and the anime code disagree at this concrete input.  The
cluster holds a MyAnimeList record (type `TV`) and a Kitsu record (type
`ONA`); the claimed priority anilist, mal, kitsu would pick `TV`, and
`MangaMapper.get_type_from_sources` indeed returns `TV` on the same data.
But `AnimeMapper.get_type_from_sources` probes `all_data` under the key
`mal` (never a storage key — records are stored under `myanimelist`) and
skips the `myanimelist` probe (never an ids key after normalization), so
its MAL branch is dead — contradicting its own comment
`Priority: AniList > MAL > others` — and it returns Kitsu's `ONA`. -/
theorem claim_C6_type_priority_bug :
    animeGetTypeFromSources (allDataOf [exMLType, exKitsuType])
      (clusterIds animeNormalizeServiceName
        [(("myanimelist", "10") : Node), (("kitsu", "100") : Node)]) =
      some "ONA" ∧
    allDataOf [exMLType, exKitsuType] ("myanimelist", "10") =
      some exMLType ∧
    exMLType.type = some "TV" ∧
    getVal (clusterIds animeNormalizeServiceName
      [(("myanimelist", "10") : Node), (("kitsu", "100") : Node)]) "mal" =
      some "10" ∧
    mangaGetTypeFromSources (allDataOf [exMLType, exKitsuType])
      (clusterIds mangaNormalizeServiceName
        [(("myanimelist", "10") : Node), (("kitsu", "100") : Node)]) =
      some "TV" := by
  refine ⟨by decide, by decide, rfl, by decide, by decide⟩

theorem mem_dictInsert {α : Type} {d : List (String × α)} {k : String}
    {v : α} {q : String × α} (h : q ∈ dictInsert d k v) :
    q ∈ d ∨ q = (k, v) := by
  rw [dictInsert] at h
  by_cases ha : d.any (fun p => p.1 == k)
  · rw [if_pos ha] at h
    obtain ⟨p, hp, hq⟩ := List.mem_map.mp h
    by_cases hpk : p.1 == k
    · right
      rw [← hq, if_pos hpk]
    · left
      rw [← hq, if_neg hpk]
      exact hp
  · rw [if_neg ha] at h
    rcases List.mem_append.mp h with h | h
    · exact Or.inl h
    · right
      simpa using h

theorem getVal_eq_none_iff {α : Type} (d : List (String × α)) (k : String) :
    getVal d k = none ↔ ∀ q ∈ d, q.1 ≠ k := by
  rw [getVal, Option.map_eq_none', List.find?_eq_none]
  constructor
  · intro h q hq
    have := h q hq
    simpa using this
  · intro h q hq
    simpa using h q hq

theorem getVal_mem {α : Type} {d : List (String × α)} {k : String} {v : α}
    (h : getVal d k = some v) : (k, v) ∈ d := by
  induction d with
  | nil => cases h
  | cons p d ih =>
    rw [getVal_cons] at h
    by_cases hp : p.1 == k
    · rw [if_pos hp] at h
      have h1 : p.1 = k := by simpa using hp
      have h2 : p.2 = v := Option.some.inj h
      rw [← h1, ← h2]
      exact List.mem_cons_self _ _
    · rw [if_neg hp] at h
      exact List.mem_cons_of_mem _ (ih h)

theorem animeAddField_mem {it : List (String × Val)} {p : String × String}
    {q : String × Val} (h : q ∈ animeAddField it p) :
    q ∈ it ∨ ∃ f, getVal ANIME_FIELD_MAP p.1 = some f ∧ q.1 = f ∧
      ((∃ n, q.2 = Val.vint n) ∨ f = "anime-planet_id") := by
  rw [animeAddField] at h
  cases hf : getVal ANIME_FIELD_MAP p.1 with
  | none =>
      simp only [hf] at h
      exact Or.inl h
  | some f =>
    simp only [hf] at h
    by_cases hpl : p.1 = "animeplanet" ∨ p.1 = "anime-planet"
    · rw [if_pos hpl] at h
      rcases mem_dictInsert h with h | h
      · exact Or.inl h
      · right
        refine ⟨f, rfl, by rw [h], Or.inr ?_⟩
        rcases hpl with h1 | h1 <;> rw [h1] at hf
        · have hfe : some f = some "anime-planet_id" := by
            rw [← hf]
            decide
          exact Option.some.inj hfe
        · have hfe : some f = some "anime-planet_id" := by
            rw [← hf]
            decide
          exact Option.some.inj hfe
    · rw [if_neg hpl] at h
      cases hi : pyToInt p.2 with
      | none =>
          simp only [hi] at h
          exact Or.inl h
      | some n =>
        simp only [hi] at h
        rcases mem_dictInsert h with h | h
        · exact Or.inl h
        · right
          exact ⟨f, rfl, by rw [h], Or.inl ⟨n, by rw [h]⟩⟩

theorem animeItemFold_mem :
    ∀ (idMap : List (String × String)) (item0 : List (String × Val))
      (q : String × Val), q ∈ idMap.foldl animeAddField item0 →
      q ∈ item0 ∨ ∃ p ∈ idMap, ∃ f, getVal ANIME_FIELD_MAP p.1 = some f ∧
        q.1 = f ∧ ((∃ n, q.2 = Val.vint n) ∨ f = "anime-planet_id") := by
  intro idMap
  induction idMap with
  | nil =>
      intro item0 q h
      exact Or.inl h
  | cons p rest ih =>
    intro item0 q h
    rw [List.foldl_cons] at h
    rcases ih _ q h with h1 | ⟨p1, hp1, f, hf, hq, hval⟩
    · rcases animeAddField_mem h1 with h2 | ⟨f, hf, hq, hval⟩
      · exact Or.inl h2
      · exact Or.inr ⟨p, List.mem_cons_self _ _, f, hf, hq, hval⟩
    · exact Or.inr ⟨p1, List.mem_cons_of_mem _ hp1, f, hf, hq, hval⟩

theorem mangaAddField_mem {it : List (String × Val)} {p : String × String}
    {q : String × Val} (h : q ∈ mangaAddField it p) :
    q ∈ it ∨ ∃ f, getVal MANGA_FIELD_MAP p.1 = some f ∧ q.1 = f ∧
      ∃ n, q.2 = Val.vint n := by
  rw [mangaAddField] at h
  cases hf : getVal MANGA_FIELD_MAP p.1 with
  | none =>
      simp only [hf] at h
      exact Or.inl h
  | some f =>
    simp only [hf] at h
    cases hi : pyToInt p.2 with
    | none =>
        simp only [hi] at h
        exact Or.inl h
    | some n =>
      simp only [hi] at h
      rcases mem_dictInsert h with h | h
      · exact Or.inl h
      · right
        exact ⟨f, rfl, by rw [h], n, by rw [h]⟩

theorem mangaItemFold_mem :
    ∀ (idMap : List (String × String)) (item0 : List (String × Val))
      (q : String × Val), q ∈ idMap.foldl mangaAddField item0 →
      q ∈ item0 ∨ ∃ p ∈ idMap, ∃ f, getVal MANGA_FIELD_MAP p.1 = some f ∧
        q.1 = f ∧ ∃ n, q.2 = Val.vint n := by
  intro idMap
  induction idMap with
  | nil =>
      intro item0 q h
      exact Or.inl h
  | cons p rest ih =>
    intro item0 q h
    rw [List.foldl_cons] at h
    rcases ih _ q h with h1 | ⟨p1, hp1, f, hf, hq, hval⟩
    · rcases mangaAddField_mem h1 with h2 | ⟨f, hf, hq, hval⟩
      · exact Or.inl h2
      · exact Or.inr ⟨p, List.mem_cons_self _ _, f, hf, hq, hval⟩
    · exact Or.inr ⟨p1, List.mem_cons_of_mem _ hp1, f, hf, hq, hval⟩

theorem animeItemFold_none :
    ∀ (idMap : List (String × String)) (item0 : List (String × Val))
      (f : String), getVal item0 f = none →
      (∀ p ∈ idMap, ∀ f', getVal ANIME_FIELD_MAP p.1 = some f' → f' = f →
        ¬ (p.1 = "animeplanet" ∨ p.1 = "anime-planet") ∧
          pyToInt p.2 = none) →
      getVal (idMap.foldl animeAddField item0) f = none := by
  intro idMap
  induction idMap with
  | nil =>
      intro item0 f h _
      exact h
  | cons p rest ih =>
    intro item0 f h hall
    rw [List.foldl_cons]
    refine ih _ f ?_ (fun p1 hp1 f' hf' hff =>
      hall p1 (List.mem_cons_of_mem _ hp1) f' hf' hff)
    rw [animeAddField]
    cases hf : getVal ANIME_FIELD_MAP p.1 with
    | none => exact h
    | some f' =>
      by_cases hff : f' = f
      · obtain ⟨hnpl, hpi⟩ := hall p (List.mem_cons_self _ _) f' hf hff
        simp only [if_neg hnpl, hpi]
        exact h
      · by_cases hpl : p.1 = "animeplanet" ∨ p.1 = "anime-planet"
        · simp only [if_pos hpl]
          rw [getVal_dictInsert_ne _ f' f _ (fun hc => hff hc.symm)]
          exact h
        · simp only [if_neg hpl]
          cases hi : pyToInt p.2 with
          | none => exact h
          | some n =>
            rw [getVal_dictInsert_ne _ f' f _ (fun hc => hff hc.symm)]
            exact h

theorem anime_field_values_special :
    ∀ f ∈ ANIME_FIELD_MAP.map Prod.snd,
      f ≠ "type" ∧ f ≠ "season" := by
  decide

theorem manga_field_values_special :
    ∀ f ∈ MANGA_FIELD_MAP.map Prod.snd,
      f ≠ "type" ∧ f ≠ "season" := by
  decide

theorem animeBuildItem_mem {ad : Node → Option Item}
    {idMap : List (String × String)} {q : String × Val}
    (h : q ∈ animeBuildItem ad idMap) :
    q.1 = "type" ∨ q.1 = "season" ∨
      ∃ p ∈ idMap, ∃ f, getVal ANIME_FIELD_MAP p.1 = some f ∧ q.1 = f ∧
        ((∃ n, q.2 = Val.vint n) ∨ f = "anime-planet_id") := by
  cases hty : animeGetTypeFromSources ad idMap with
  | some t =>
    cases hse : extractSeason ad idMap with
    | some s =>
      simp only [animeBuildItem, hty, hse] at h
      rcases mem_dictInsert h with h | h
      · rcases animeItemFold_mem idMap _ q h with h1 | h1
        · left
          rcases List.mem_singleton.mp h1 with rfl
          rfl
        · exact Or.inr (Or.inr h1)
      · right
        left
        rw [h]
    | none =>
      simp only [animeBuildItem, hty, hse] at h
      rcases animeItemFold_mem idMap _ q h with h1 | h1
      · left
        rcases List.mem_singleton.mp h1 with rfl
        rfl
      · exact Or.inr (Or.inr h1)
  | none =>
    cases hse : extractSeason ad idMap with
    | some s =>
      simp only [animeBuildItem, hty, hse] at h
      rcases mem_dictInsert h with h | h
      · rcases animeItemFold_mem idMap _ q h with h1 | h1
        · cases h1
        · exact Or.inr (Or.inr h1)
      · right
        left
        rw [h]
    | none =>
      simp only [animeBuildItem, hty, hse] at h
      rcases animeItemFold_mem idMap _ q h with h1 | h1
      · cases h1
      · exact Or.inr (Or.inr h1)

theorem mangaBuildItem_mem {ad : Node → Option Item}
    {idMap : List (String × String)} {q : String × Val}
    (h : q ∈ mangaBuildItem ad idMap) :
    q.1 = "type" ∨
      ∃ p ∈ idMap, ∃ f, getVal MANGA_FIELD_MAP p.1 = some f ∧ q.1 = f ∧
        ∃ n, q.2 = Val.vint n := by
  cases hty : mangaGetTypeFromSources ad idMap with
  | some t =>
    simp only [mangaBuildItem, hty] at h
    rcases mangaItemFold_mem idMap _ q h with h1 | h1
    · left
      rcases List.mem_singleton.mp h1 with rfl
      rfl
    · exact Or.inr h1
  | none =>
    simp only [mangaBuildItem, hty] at h
    rcases mangaItemFold_mem idMap _ q h with h1 | h1
    · cases h1
    · exact Or.inr h1

theorem animeBuildItem_getVal_none (ad : Node → Option Item)
    (idMap : List (String × String)) (f : String)
    (hfv : f ∈ ANIME_FIELD_MAP.map Prod.snd)
    (hfp : f ≠ "anime-planet_id")
    (hall : ∀ p ∈ idMap, getVal ANIME_FIELD_MAP p.1 = some f →
      pyToInt p.2 = none) :
    getVal (animeBuildItem ad idMap) f = none := by
  obtain ⟨hft, hfs⟩ := anime_field_values_special f hfv
  have h0 : ∀ item0 : List (String × Val),
      (∀ q ∈ item0, q.1 = "type") →
      getVal (idMap.foldl animeAddField item0) f = none := by
    intro item0 h0t
    refine animeItemFold_none idMap item0 f ?_ ?_
    · rw [getVal_eq_none_iff]
      intro q hq
      rw [h0t q hq]
      exact fun hc => hft hc.symm
    · intro p hp f' hf' hff
      subst hff
      constructor
      · intro hpl
        apply hfp
        rcases hpl with h1 | h1 <;> rw [h1] at hf'
        · have hfe : some f' = some "anime-planet_id" := by
            rw [← hf']
            decide
          exact Option.some.inj hfe
        · have hfe : some f' = some "anime-planet_id" := by
            rw [← hf']
            decide
          exact Option.some.inj hfe
      · exact hall p hp hf'
  cases hty : animeGetTypeFromSources ad idMap with
  | some t =>
    cases hse : extractSeason ad idMap with
    | some s =>
      simp only [animeBuildItem, hty, hse]
      rw [getVal_dictInsert_ne _ "season" f _ hfs]
      exact h0 _ (by
        intro q hq
        rcases List.mem_singleton.mp hq with rfl
        rfl)
    | none =>
      simp only [animeBuildItem, hty, hse]
      exact h0 _ (by
        intro q hq
        rcases List.mem_singleton.mp hq with rfl
        rfl)
  | none =>
    cases hse : extractSeason ad idMap with
    | some s =>
      simp only [animeBuildItem, hty, hse]
      rw [getVal_dictInsert_ne _ "season" f _ hfs]
      exact h0 _ (by
        intro q hq
        cases hq)
    | none =>
      simp only [animeBuildItem, hty, hse]
      exact h0 _ (by
        intro q hq
        cases hq)

/-- Claim C7: in both mappers' final items every id field other than the
slug-valued `anime-planet_id` holds an integer; when every cluster id
destined for a field fails integer coercion that field is simply absent
(the builder is a total function, so no error is raised); and an item
appears in the final list exactly when it was built from a cross-reference
entry and retains at least one id field. -/
theorem claim_C7_integer_coercion :
    (∀ ad idMap k v, (k, v) ∈ animeBuildItem ad idMap → k ≠ "type" →
      k ≠ "season" → k ≠ "anime-planet_id" → ∃ n, v = Val.vint n) ∧
    (∀ ad idMap k v, (k, v) ∈ mangaBuildItem ad idMap → k ≠ "type" →
      ∃ n, v = Val.vint n) ∧
    (∀ ad idMap f, f ∈ ANIME_FIELD_MAP.map Prod.snd →
      f ≠ "anime-planet_id" →
      (∀ p ∈ idMap, getVal ANIME_FIELD_MAP p.1 = some f →
        pyToInt p.2 = none) →
      getVal (animeBuildItem ad idMap) f = none) ∧
    (∀ ad crossRef it, it ∈ animeMergeToFinalFormat ad crossRef ↔
      ((∃ kv ∈ crossRef, animeBuildItem ad kv.2 = it) ∧
        hasAnyIdField ANIME_FIELD_MAP it = true)) ∧
    (∀ ad crossRef it, it ∈ mangaMergeToFinalFormat ad crossRef ↔
      ((∃ kv ∈ crossRef, mangaBuildItem ad kv.2 = it) ∧
        hasAnyIdField MANGA_FIELD_MAP it = true)) := by
  refine ⟨?_, ?_, animeBuildItem_getVal_none, ?_, ?_⟩
  · intro ad idMap k v hmem hkt hks hkp
    rcases animeBuildItem_mem hmem with h | h | ⟨p, _, f, _, hqf, hval⟩
    · exact absurd h hkt
    · exact absurd h hks
    · rcases hval with ⟨n, hn⟩ | hf
      · exact ⟨n, hn⟩
      · exact absurd (hqf.trans hf) hkp
  · intro ad idMap k v hmem hkt
    rcases mangaBuildItem_mem hmem with h | ⟨p, _, f, _, _, n, hn⟩
    · exact absurd h hkt
    · exact ⟨n, hn⟩
  · intro ad crossRef it
    simp only [animeMergeToFinalFormat, sortFinal, List.mem_mergeSort,
      List.mem_filter, List.mem_map]
  · intro ad crossRef it
    simp only [mangaMergeToFinalFormat, sortFinal, List.mem_mergeSort,
      List.mem_filter, List.mem_map]

/-- Witness for claim C7: with a cluster carrying the non-numeric id
`mal:abc` and the numeric id `kitsu:5`, the `mal_id` field is absent from
the built item while the item still carries an integer `kitsu_id`. -/
theorem claim_C7_witness :
    getVal (animeBuildItem (allDataOf [])
      [("mal", "abc"), ("kitsu", "5")]) "mal_id" = none ∧
    (∃ n, (Val.vint 5 : Val) = Val.vint n) :=
  ⟨claim_C7_integer_coercion.2.2.1 (allDataOf [])
      [("mal", "abc"), ("kitsu", "5")] "mal_id" (by decide) (by decide)
      (by decide),
   claim_C7_integer_coercion.1 (allDataOf []) [("mal", "abc"), ("kitsu", "5")]
     "kitsu_id" (Val.vint 5) (by decide) (by decide) (by decide) (by decide)⟩

/-- Claim C8: an anime item's season sub-object components exist exactly
when the cluster has an AniDB record whose metadata carries a season value
outside the sentinel set `a`, `0`, `movie`, `ova`, `""` that coerces to an
integer — with the same sentinel set characterizing both the TVDB and the
TMDB season (the code checks `movie`/`ova` only for TVDB, but both fail
integer coercion, so the behaviours coincide) — the `season` key is
present exactly when one of the two components was extracted, and manga
items never carry a `season` key. -/
theorem claim_C8_season_extraction :
    (∀ ad idMap n, (extractSeasonInfo ad idMap).1 = some n ↔
      ∃ aid, getVal idMap "anidb" = some aid ∧
      ∃ itm, ad ("anidb", aid) = some itm ∧
      ∃ v, getVal itm.metadata "default_tvdb_season" = some v ∧
        v ∉ ["a", "0", "movie", "ova", ""] ∧ pyToInt v = some n) ∧
    (∀ ad idMap n, (extractSeasonInfo ad idMap).2 = some n ↔
      ∃ aid, getVal idMap "anidb" = some aid ∧
      ∃ itm, ad ("anidb", aid) = some itm ∧
      ∃ v, getVal itm.metadata "tmdb_season" = some v ∧
        v ∉ ["a", "0", "movie", "ova", ""] ∧ pyToInt v = some n) ∧
    (∀ ad idMap, getVal (animeBuildItem ad idMap) "season" =
      extractSeason ad idMap) ∧
    (∀ ad idMap, extractSeason ad idMap = none ↔
      extractSeasonInfo ad idMap = (none, none)) ∧
    (∀ ad idMap, getVal (mangaBuildItem ad idMap) "season" = none) := by
  refine ⟨?_, ?_, ?_, ?_, ?_⟩
  · intro ad idMap n
    cases h1 : getVal idMap "anidb" with
    | none => simp [extractSeasonInfo, h1]
    | some aid =>
      cases h2 : ad ("anidb", aid) with
      | none => simp [extractSeasonInfo, h1, h2]
      | some itm =>
        simp only [extractSeasonInfo, h1, h2]
        cases h3 : getVal itm.metadata "default_tvdb_season" with
        | none =>
          constructor
          · intro h
            exact Option.noConfusion h
          · rintro ⟨aid2, haid, itm2, hitm, v, hv, -, -⟩
            cases Option.some.inj haid
            rw [h2] at hitm
            cases Option.some.inj hitm
            rw [h3] at hv
            cases hv
        | some v =>
          change (if v ≠ "" ∧ v ∉ ["a", "0", "movie", "ova", ""] then
            pyToInt v else none) = some n ↔ _
          by_cases hc : v ≠ "" ∧ v ∉ ["a", "0", "movie", "ova", ""]
          · rw [if_pos hc]
            constructor
            · intro hpi
              exact ⟨aid, rfl, itm, h2, v, h3, hc.2, hpi⟩
            · rintro ⟨aid2, haid, itm2, hitm, v2, hv2, hnin, hpi⟩
              cases Option.some.inj haid
              rw [h2] at hitm
              cases Option.some.inj hitm
              rw [h3] at hv2
              cases Option.some.inj hv2
              exact hpi
          · rw [if_neg hc]
            constructor
            · intro h
              cases h
            · rintro ⟨aid2, haid, itm2, hitm, v2, hv2, hnin, hpi⟩
              cases Option.some.inj haid
              rw [h2] at hitm
              cases Option.some.inj hitm
              rw [h3] at hv2
              cases Option.some.inj hv2
              exact absurd ⟨fun he => hnin (by rw [he]; decide), hnin⟩ hc
  · intro ad idMap n
    cases h1 : getVal idMap "anidb" with
    | none => simp [extractSeasonInfo, h1]
    | some aid =>
      cases h2 : ad ("anidb", aid) with
      | none => simp [extractSeasonInfo, h1, h2]
      | some itm =>
        simp only [extractSeasonInfo, h1, h2]
        cases h3 : getVal itm.metadata "tmdb_season" with
        | none =>
          constructor
          · intro h
            exact Option.noConfusion h
          · rintro ⟨aid2, haid, itm2, hitm, v, hv, -, -⟩
            cases Option.some.inj haid
            rw [h2] at hitm
            cases Option.some.inj hitm
            rw [h3] at hv
            cases hv
        | some v =>
          change (if v ≠ "" ∧ v ∉ ["a", "0", ""] then
            pyToInt v else none) = some n ↔ _
          by_cases hc : v ≠ "" ∧ v ∉ ["a", "0", ""]
          · rw [if_pos hc]
            constructor
            · intro hpi
              refine ⟨aid, rfl, itm, h2, v, h3, ?_, hpi⟩
              intro hmem
              simp only [List.mem_cons, List.mem_singleton,
                List.not_mem_nil, or_false] at hmem
              rcases hmem with h | h | h | h | h
              · exact hc.2 (by rw [h]; decide)
              · exact hc.2 (by rw [h]; decide)
              · rw [h] at hpi
                cases (by decide : pyToInt "movie" = none).symm.trans hpi
              · rw [h] at hpi
                cases (by decide : pyToInt "ova" = none).symm.trans hpi
              · exact hc.1 h
            · rintro ⟨aid2, haid, itm2, hitm, v2, hv2, hnin, hpi⟩
              cases Option.some.inj haid
              rw [h2] at hitm
              cases Option.some.inj hitm
              rw [h3] at hv2
              cases Option.some.inj hv2
              exact hpi
          · rw [if_neg hc]
            constructor
            · intro h
              cases h
            · rintro ⟨aid2, haid, itm2, hitm, v2, hv2, hnin, hpi⟩
              cases Option.some.inj haid
              rw [h2] at hitm
              cases Option.some.inj hitm
              rw [h3] at hv2
              cases Option.some.inj hv2
              refine absurd ⟨fun he => hnin (by rw [he]; decide), ?_⟩ hc
              intro hmem
              simp only [List.mem_cons, List.mem_singleton,
                List.not_mem_nil, or_false] at hmem
              rcases hmem with h | h | h
              · exact hnin (by rw [h]; decide)
              · exact hnin (by rw [h]; decide)
              · exact hnin (by rw [h]; decide)
  · intro ad idMap
    cases hse : extractSeason ad idMap with
    | some s =>
      simp only [animeBuildItem, hse]
      exact getVal_dictInsert_self _ "season" s
    | none =>
      simp only [animeBuildItem, hse]
      rw [getVal_eq_none_iff]
      intro q hq
      cases hty : animeGetTypeFromSources ad idMap with
      | some t =>
        rw [hty] at hq
        rcases animeItemFold_mem idMap _ q hq with h1 | ⟨p, _, f, hf, hqf, -⟩
        · rcases List.mem_singleton.mp h1 with rfl
          exact (by decide : ("type" : String) ≠ "season")
        · rw [hqf]
          have hfv : f ∈ ANIME_FIELD_MAP.map Prod.snd :=
            List.mem_map.mpr ⟨(p.1, f), getVal_mem hf, rfl⟩
          exact (anime_field_values_special f hfv).2
      | none =>
        rw [hty] at hq
        rcases animeItemFold_mem idMap _ q hq with h1 | ⟨p, _, f, hf, hqf, -⟩
        · cases h1
        · rw [hqf]
          have hfv : f ∈ ANIME_FIELD_MAP.map Prod.snd :=
            List.mem_map.mpr ⟨(p.1, f), getVal_mem hf, rfl⟩
          exact (anime_field_values_special f hfv).2
  · intro ad idMap
    cases hsi : extractSeasonInfo ad idMap with
    | mk t m =>
      cases t <;> cases m <;> simp [extractSeason, hsi]
  · intro ad idMap
    rw [getVal_eq_none_iff]
    intro q hq
    rcases mangaBuildItem_mem hq with h | ⟨p, _, f, hf, hqf, -⟩
    · rw [h]
      decide
    · rw [hqf]
      have hfv : f ∈ MANGA_FIELD_MAP.map Prod.snd :=
        List.mem_map.mpr ⟨(p.1, f), getVal_mem hf, rfl⟩
      exact (manga_field_values_special f hfv).2

theorem keyLE_trans (a b c : Bool × Int) (hab : keyLE a b = true)
    (hbc : keyLE b c = true) : keyLE a c = true := by
  rcases a with ⟨a1, a2⟩
  rcases b with ⟨b1, b2⟩
  rcases c with ⟨c1, c2⟩
  cases a1 <;> cases b1 <;> cases c1 <;>
    simp_all [keyLE] <;> omega

theorem keyLE_total (a b : Bool × Int) : keyLE a b || keyLE b a := by
  rcases a with ⟨a1, a2⟩
  rcases b with ⟨b1, b2⟩
  cases a1 <;> cases b1 <;> simp [keyLE] <;> omega

theorem keyLE_refl (a : Bool × Int) : keyLE a a = true := by
  simp [keyLE]

theorem sortFinal_sorted (f : String) (l : List (List (String × Val))) :
    (sortFinal f l).Pairwise
      (fun a b => keyLE (sortKeyOf f a) (sortKeyOf f b) = true) := by
  apply List.sorted_mergeSort
  · exact fun a b c hab hbc => keyLE_trans _ _ _ hab hbc
  · exact fun a b => keyLE_total _ _

theorem sortFinal_perm (f : String) (l : List (List (String × Val))) :
    (sortFinal f l).Perm l :=
  List.mergeSort_perm l _

theorem sortFinal_stable (f : String) (l : List (List (String × Val)))
    (a b : List (String × Val)) (hs : List.Sublist [a, b] l)
    (hk : keyLE (sortKeyOf f a) (sortKeyOf f b) = true) :
    List.Sublist [a, b] (sortFinal f l) := by
  apply List.pair_sublist_mergeSort
  · exact fun x y z hxy hyz => keyLE_trans _ _ _ hxy hyz
  · exact fun x y => keyLE_total _ _
  · exact hk
  · exact hs

theorem sortKeyOf_fst_true (f : String) (it : List (String × Val)) :
    (sortKeyOf f it).1 = true ↔ getVal it f = none := by
  cases h : getVal it f with
  | none => simp [sortKeyOf, h]
  | some v => cases v <;> simp [sortKeyOf, h]

theorem sortFinal_none_last (f : String) (l : List (List (String × Val))) :
    (sortFinal f l).Pairwise
      (fun a b => getVal a f = none → getVal b f = none) := by
  apply (sortFinal_sorted f l).imp
  intro a b hab hna
  rw [← sortKeyOf_fst_true] at hna
  rw [← sortKeyOf_fst_true]
  rw [keyLE] at hab
  by_cases he : (sortKeyOf f a).1 = (sortKeyOf f b).1
  · rw [← he]
    exact hna
  · rw [if_neg he] at hab
    have hfa : (sortKeyOf f a).1 = false := by simpa using hab
    rw [hna] at hfa
    cases hfa

/-- Claim C9: both final lists are sorted ascending by the designated
primary id key (`anidb_id` for anime, `anilist_id` for manga), every item
lacking that field comes after all items having it, the sort is stable
(two filtered items with equal sort keys keep their original relative
order), and the output is a permutation of the filtered item list. -/
theorem claim_C9_sorted_output :
    (∀ ad crossRef, (animeMergeToFinalFormat ad crossRef).Pairwise
      (fun a b =>
        keyLE (sortKeyOf "anidb_id" a) (sortKeyOf "anidb_id" b) = true)) ∧
    (∀ ad crossRef, (animeMergeToFinalFormat ad crossRef).Pairwise
      (fun a b => getVal a "anidb_id" = none → getVal b "anidb_id" = none)) ∧
    (∀ ad crossRef a b, List.Sublist [a, b]
        ((crossRef.map (fun kv => animeBuildItem ad kv.2)).filter
          (fun it => hasAnyIdField ANIME_FIELD_MAP it)) →
      sortKeyOf "anidb_id" a = sortKeyOf "anidb_id" b →
      List.Sublist [a, b] (animeMergeToFinalFormat ad crossRef)) ∧
    (∀ ad crossRef, (animeMergeToFinalFormat ad crossRef).Perm
      ((crossRef.map (fun kv => animeBuildItem ad kv.2)).filter
        (fun it => hasAnyIdField ANIME_FIELD_MAP it))) ∧
    (∀ ad crossRef, (mangaMergeToFinalFormat ad crossRef).Pairwise
      (fun a b =>
        keyLE (sortKeyOf "anilist_id" a) (sortKeyOf "anilist_id" b) = true)) ∧
    (∀ ad crossRef, (mangaMergeToFinalFormat ad crossRef).Pairwise
      (fun a b =>
        getVal a "anilist_id" = none → getVal b "anilist_id" = none)) ∧
    (∀ ad crossRef a b, List.Sublist [a, b]
        ((crossRef.map (fun kv => mangaBuildItem ad kv.2)).filter
          (fun it => hasAnyIdField MANGA_FIELD_MAP it)) →
      sortKeyOf "anilist_id" a = sortKeyOf "anilist_id" b →
      List.Sublist [a, b] (mangaMergeToFinalFormat ad crossRef)) ∧
    (∀ ad crossRef, (mangaMergeToFinalFormat ad crossRef).Perm
      ((crossRef.map (fun kv => mangaBuildItem ad kv.2)).filter
        (fun it => hasAnyIdField MANGA_FIELD_MAP it))) := by
  refine ⟨?_, ?_, ?_, ?_, ?_, ?_, ?_, ?_⟩
  · intro ad crossRef
    exact sortFinal_sorted "anidb_id" _
  · intro ad crossRef
    exact sortFinal_none_last "anidb_id" _
  · intro ad crossRef a b hs hk
    exact sortFinal_stable "anidb_id" _ a b hs (by rw [hk]; exact keyLE_refl _)
  · intro ad crossRef
    exact sortFinal_perm "anidb_id" _
  · intro ad crossRef
    exact sortFinal_sorted "anilist_id" _
  · intro ad crossRef
    exact sortFinal_none_last "anilist_id" _
  · intro ad crossRef a b hs hk
    exact sortFinal_stable "anilist_id" _ a b hs
      (by rw [hk]; exact keyLE_refl _)
  · intro ad crossRef
    exact sortFinal_perm "anilist_id" _

/-- Witness for claim C9: two items both lacking `anidb_id` (equal sort
keys) keep their original relative order in the sorted anime output. -/
theorem claim_C9_witness :
    List.Sublist
      [animeBuildItem (allDataOf []) [("kitsu", "5")],
       animeBuildItem (allDataOf []) [("kitsu", "6")]]
      (animeMergeToFinalFormat (allDataOf [])
        [("k1", [("kitsu", "5")]), ("k2", [("kitsu", "6")])]) := by
  apply claim_C9_sorted_output.2.2.1
  · have hfe : (([("k1", [("kitsu", "5")]), ("k2", [("kitsu", "6")])].map
        (fun kv => animeBuildItem (allDataOf []) kv.2)).filter
        (fun it => hasAnyIdField ANIME_FIELD_MAP it)) =
        [animeBuildItem (allDataOf []) [("kitsu", "5")],
         animeBuildItem (allDataOf []) [("kitsu", "6")]] := by decide
    rw [hfe]
  · decide

end Animanga
